import Mathlib

/-!
Verification of the ST-Manager server plugin core against its specification.

This file gives a shallow embedding, in Lean 4, of the parts of the Python
source that the verified properties concern:

* src/core/utils/data.py      : normalize_card_v3, deterministic_sort
* src/core/utils/hash.py      : get_file_hash_and_size, _calculate_data_hash
* src/core/automation/engine.py   : AutomationEngine (field resolution,
                                    condition checking, ruleset evaluation)
* src/core/automation/executor.py : AutomationExecutor.apply_plan
* src/core/automation/manager.py  : RuleManager.save_ruleset id computation

Modelling conventions, used consistently below:

* JSON documents (Python dicts / lists / scalars as produced by json.load)
  are modelled by the inductive type Json.  Python dicts are insertion-ordered
  association lists: assignment replaces the value of an existing key in
  place, otherwise appends; deletion removes the entry.  JSON null and Python
  None coincide (json.load maps null to None), so Json.null models both.
* JSON numbers are modelled as integers (no claim below depends on float
  behaviour).
* Python str.lower / str.upper are modelled on ASCII letters (Char.toLower /
  Char.toUpper), matching Python on the ASCII inputs the claims use.
* MD5 is kept abstract: the "fingerprint" of a document is modelled by the
  exact byte/character string the source feeds to hashlib.md5.  Equal strings
  hash equal; distinct strings are treated as fingerprinting differently
  (an MD5 collision is the only escape, and the source itself documents the
  signature as a non-cryptographic heuristic).
* The Python re module is kept abstract: condition evaluation is
  parameterised by an oracle of type RegexSearch; the None result models an
  invalid pattern (re.error), which the source catches and maps to False.
-/

/-- JSON value tree: Python scalars, lists and (insertion-ordered) dicts. -/
inductive Json where
  | null : Json
  | bool (b : Bool) : Json
  | num (n : Int) : Json
  | str (s : String) : Json
  | arr (xs : List Json) : Json
  | obj (kvs : List (String × Json)) : Json

/-! ### Character-list string helpers

Core String functions (toLower, splitOn, trim, ≤) are implemented by
well-founded recursion and do not reduce in the kernel, so the Python string
operations are modelled by structural recursion over the character list. -/

/-- Python str.lower, ASCII (sufficient for the inputs the claims use). -/
def pyLower (s : String) : String := ⟨s.data.map Char.toLower⟩

/-- Python str.upper, ASCII. -/
def pyUpper (s : String) : String := ⟨s.data.map Char.toUpper⟩

/-- Lexicographic comparison of character lists by code point, the order
Python uses to compare strings.  Equal lists compare as ≤. -/
def charsLe : List Char → List Char → Bool
  | [], _ => true
  | _ :: _, [] => false
  | a :: as, b :: bs =>
      if a.toNat < b.toNat then true
      else if b.toNat < a.toNat then false
      else charsLe as bs

/-- Python string ≤ (code-point lexicographic). -/
def strLe (a b : String) : Bool := charsLe a.data b.data

/-- Membership of a character in a string (Python `c in s` for one char). -/
def strHasChar (s : String) (c : Char) : Bool := s.data.contains c

/-- Python whitespace characters stripped by str.strip (ASCII subset). -/
def isPyWhitespace (c : Char) : Bool :=
  c = ' ' || c = '\t' || c = '\n' || c = '\r' || c = '\x0b' || c = '\x0c'

/-- Python str.strip: remove leading and trailing whitespace. -/
def pyStrip (s : String) : String :=
  ⟨((s.data.dropWhile isPyWhitespace).reverse.dropWhile isPyWhitespace).reverse⟩

/-- Split a character list at a separator character (Python str.split(sep)
for a one-character separator: preserves empty pieces). -/
def splitChar (sep : Char) : List Char → List (List Char)
  | [] => [[]]
  | c :: rest =>
      let r := splitChar sep rest
      if c = sep then [] :: r
      else match r with
        | [] => [[c]]
        | piece :: more => (c :: piece) :: more

/-- Python str.split(",") on a string. -/
def pySplitComma (s : String) : List String :=
  (splitChar ',' s.data).map (fun cs => ⟨cs⟩)

/-- Substring test on character lists (Python `needle in hay`). -/
def charsStartWith : List Char → List Char → Bool
  | [], _ => true
  | _ :: _, [] => false
  | a :: as, b :: bs => a = b && charsStartWith as bs

/-- Occurrence of a character list anywhere inside another. -/
def charsInfix (needle : List Char) : List Char → Bool
  | [] => charsStartWith needle []
  | c :: rest => charsStartWith needle (c :: rest) || charsInfix needle rest

/-- Python substring containment `needle in hay`. -/
def strInStr (needle hay : String) : Bool := charsInfix needle.data hay.data

/-! ### Python dict primitives on association lists -/

/-- Python `d.get(k)` / `d[k]` lookup: value of the first (unique) entry. -/
def dget (kvs : List (String × Json)) (k : String) : Option Json :=
  match kvs with
  | [] => none
  | (k', v) :: t => if k' = k then some v else dget t k

/-- Python `k in d` key membership. -/
def dmem (kvs : List (String × Json)) (k : String) : Bool :=
  match kvs with
  | [] => false
  | (k', _) :: t => k' = k || dmem t k

/-- Python `d[k] = v` assignment: replace in place if the key exists
(keeping its position, as Python dicts do), else append. -/
def dset (kvs : List (String × Json)) (k : String) (v : Json) :
    List (String × Json) :=
  match kvs with
  | [] => [(k, v)]
  | (k', v') :: t => if k' = k then (k, v) :: t else (k', v') :: dset t k v

/-- Python `del d[k]`: remove the entry with the given key. -/
def derase (kvs : List (String × Json)) (k : String) : List (String × Json) :=
  match kvs with
  | [] => []
  | (k', v) :: t => if k' = k then derase t k else (k', v) :: derase t k

/-- Python truthiness of a JSON value (`bool(x)`). -/
def truthy : Json → Bool
  | .null => false
  | .bool b => b
  | .num n => n ≠ 0
  | .str s => s ≠ ""
  | .arr [] => false
  | .arr (_ :: _) => true
  | .obj [] => false
  | .obj (_ :: _) => true

/-! ### Python str() coercion

str() of scalars is exact.  str() of containers is Python repr; the model
renders it with single-quoted strings escaping backslash, quote and the
common control characters, matching Python on inputs free of exotic
characters (no claim below depends on the container rendering). -/

/-- Escapes applied inside a Python single-quoted repr. -/
def pyReprEscapeChar (c : Char) : List Char :=
  if c = '\\' then ['\\', '\\']
  else if c = '\'' then ['\\', '\'']
  else if c = '\n' then ['\\', 'n']
  else if c = '\r' then ['\\', 'r']
  else if c = '\t' then ['\\', 't']
  else [c]

/-- Python repr of a string (single-quoted form). -/
def pyReprStr (s : String) : String :=
  ⟨'\'' :: (s.data.flatMap pyReprEscapeChar) ++ ['\'']⟩

mutual

/-- Python str() of a JSON value: None → "None", booleans capitalised,
integers in decimal, strings verbatim, containers via repr. -/
def pyStr : Json → String
  | .null => "None"
  | .bool b => if b then "True" else "False"
  | .num n => n.repr
  | .str s => s
  | .arr xs => "[" ++ ", ".intercalate (pyStrList xs) ++ "]"
  | .obj kvs => "\x7b" ++ ", ".intercalate (pyStrEntries kvs) ++ "\x7d"

/-- repr of the elements of a Python list. -/
def pyStrList : List Json → List String
  | [] => []
  | x :: t => pyReprInner x :: pyStrList t

/-- repr of the entries of a Python dict. -/
def pyStrEntries : List (String × Json) → List String
  | [] => []
  | (k, v) :: t => (pyReprStr k ++ ": " ++ pyReprInner v) :: pyStrEntries t

/-- Python repr of a JSON value (strings quoted, containers recursed;
scalars render as str() does). -/
def pyReprInner : Json → String
  | .str s => pyReprStr s
  | .arr xs => "[" ++ ", ".intercalate (pyStrList xs) ++ "]"
  | .obj kvs => "\x7b" ++ ", ".intercalate (pyStrEntries kvs) ++ "\x7d"
  | .null => "None"
  | .bool b => if b then "True" else "False"
  | .num n => n.repr

end

/-! ### src/core/utils/data.py : deterministic_sort -/

/-- Root-level priority keys of deterministic_sort (data.py lines 10-14). -/
def root_priority : List String :=
  ["name", "description", "personality", "scenario", "first_mes", "mes_example",
   "creatorcomment", "avatar", "talkativeness", "fav", "tags",
   "spec", "spec_version", "data", "create_date"]

/-- Data-level priority keys (data.py lines 17-22). -/
def data_priority : List String :=
  ["name", "description", "personality", "scenario", "first_mes", "mes_example",
   "creator_notes", "system_prompt", "post_history_instructions",
   "tags", "creator", "character_version", "alternate_greetings",
   "extensions", "group_only_greetings", "character_book"]

/-- Extension-field priority keys (data.py lines 26-38). -/
def extension_priority : List String :=
  ["id", "scriptName", "name", "enabled", "disabled",
   "findRegex", "replaceString", "trimStrings", "placement",
   "runOnEdit", "markdownOnly", "promptOnly",
   "minDepth", "maxDepth", "substituteRegex",
   "type", "content", "info", "button", "data",
   "top", "bottom", "left", "right"]

/-- Order-preserving deduplication, as the source builds all_priority
(data.py lines 43-48). -/
def dedupKeys : List String → List String → List String
  | [], _ => []
  | k :: t, seen => if k ∈ seen then dedupKeys t seen else k :: dedupKeys t (k :: seen)

/-- The merged priority key list all_priority of deterministic_sort. -/
def all_priority : List String :=
  dedupKeys (root_priority ++ data_priority ++ extension_priority) []

/-- Key-ordering relation used to model Python sorted(obj.keys()): compare
entries by key, code-point lexicographically. -/
def keyLe (a b : String × Json) : Prop := strLe a.1 b.1 = true

instance : DecidableRel keyLe := fun a b =>
  instDecidableEqBool (strLe a.1 b.1) true

/-- Reordering step of deterministic_sort on one dict's entries: priority
keys present, in all_priority order, then the remaining keys sorted
lexically.  Python sorted() is a stable sort; it is modelled by insertion
sort (identical on the duplicate-free key lists Python dicts guarantee). -/
def reorderEntries (kvs : List (String × Json)) : List (String × Json) :=
  (all_priority.filterMap (fun k => (dget kvs k).map (fun v => (k, v)))) ++
    List.insertionSort keyLe (kvs.filter (fun p => p.1 ∉ all_priority))

mutual

/-- deterministic_sort (data.py lines 3-65): recursively reorder every
dict's keys; lists are recursed element-wise; scalars pass through.  The
per-key recursion of the source commutes with the reordering (the reorder
only inspects keys), so the model recurses into the values first and then
reorders. -/
def deterministic_sort : Json → Json
  | .obj kvs => .obj (reorderEntries (dsortEntries kvs))
  | .arr xs => .arr (dsortList xs)
  | j => j

/-- deterministic_sort mapped over the elements of a list. -/
def dsortList : List Json → List Json
  | [] => []
  | x :: t => deterministic_sort x :: dsortList t

/-- deterministic_sort mapped over the values of a dict. -/
def dsortEntries : List (String × Json) → List (String × Json)
  | [] => []
  | (k, v) :: t => (k, deterministic_sort v) :: dsortEntries t

end

/-! ### src/core/utils/data.py : normalize_card_v3 -/

/-- Core logical fields that must exist under data (data.py lines 94-98). -/
def core_fields : List String :=
  ["name", "description", "personality", "scenario", "first_mes", "mes_example",
   "creator_notes", "system_prompt", "post_history_instructions", "tags",
   "creator", "character_version", "alternate_greetings", "extensions",
   "character_book"]

/-- V2 legacy root key for a data field: the reverse lookup over
key_mapping = `creatorcomment -> creator_notes` (data.py lines 102-114). -/
def rootKeyFor (field : String) : String :=
  if field = "creator_notes" then "creatorcomment" else field

/-- The root value considered for syncing a core field: the legacy-named
root key first, else the field's own name (data.py lines 116-119). -/
def rootVal (kvs : List (String × Json)) (field : String) : Option Json :=
  match dget kvs (rootKeyFor field) with
  | some v => some v
  | none => dget kvs field

/-- One step of the field-sync loop (data.py lines 121-125): copy the root
value into data only when data lacks the field and the root value is not
None. -/
def syncField (kvs : List (String × Json)) (db : List (String × Json))
    (field : String) : List (String × Json) :=
  if dmem db field then db
  else match rootVal kvs field with
    | some .null => db
    | some v => dset db field v
    | none => db

/-- Relocation of character_book / extensions into data (data.py lines
130-143), on the root/data pair: if root holds the key, ensure data holds
it too, then delete the root copy. -/
def relocate (key : String)
    (p : List (String × Json) × List (String × Json)) :
    List (String × Json) × List (String × Json) :=
  if dmem p.1 key then
    (derase p.1 key,
     if dmem p.2 key then p.2 else dset p.2 key ((dget p.1 key).getD .null))
  else p

/-- Cleanup of root-only keys inside data (data.py lines 151-153 and the
migration copy cleanup at lines 80-82). -/
def stripRootOnly (db : List (String × Json)) : List (String × Json) :=
  derase (derase (derase db "spec") "spec_version") "data"

/-- V2 → V3 migration (data.py lines 76-82): when data is absent or not a
dict, set it to a copy of the root with the root-only keys removed.  The
source takes the copy before assigning, so an old non-dict data entry is in
the copy and then removed by the cleanup. -/
def migrateRoot (kvs0 : List (String × Json)) : List (String × Json) :=
  match dget kvs0 "data" with
  | some (.obj _) => kvs0
  | _ => dset kvs0 "data" (.obj (stripRootOnly kvs0))

/-- The data block reference the source takes after migration (data.py line
85); after migrateRoot the data entry is always a dict. -/
def dataBlockOf (kvs : List (String × Json)) : List (String × Json) :=
  match dget kvs "data" with
  | some (.obj d) => d
  | _ => []

/-- Forcing of the V3 header fields (data.py lines 88-89). -/
def specHeaders (kvs : List (String × Json)) : List (String × Json) :=
  dset (dset kvs "spec" (.str "chara_card_v3")) "spec_version" (.str "3.0")

/-- The field-sync loop over all core fields (data.py lines 106-125). -/
def syncCore (kvs db : List (String × Json)) : List (String × Json) :=
  core_fields.foldl (syncField kvs) db

/-- The root entries of normalize_card_v3's result on a dict input.
Mutation of the Python dicts is modelled by threading the root entry list
and the data block as values; the data block is written back into the root
at the end, which is what the in-place aliasing of the source amounts to
(every source mutation is a top-level assignment or deletion on the root
dict or on the data dict). -/
def normOut (kvs0 : List (String × Json)) : List (String × Json) :=
  let kvs2 := specHeaders (migrateRoot kvs0)
  let p := relocate "extensions"
    (relocate "character_book" (kvs2, syncCore kvs2 (dataBlockOf (migrateRoot kvs0))))
  dset p.1 "data" (.obj (stripRootOnly p.2))

/-- normalize_card_v3 (data.py lines 67-155): migrate to a V3 layout, force
the spec headers, sync the core fields into data, relocate character_book
and extensions into data, and strip root-only keys from data.  Non-dict
input is returned unchanged (lines 72-73). -/
def normalize_card_v3 : Json → Json
  | .obj kvs0 => .obj (normOut kvs0)
  | j => j

/-! ### Compact JSON serialization

json.dumps(..., ensure_ascii=False, separators=(",", ":")) : minimal JSON
escaping (backslash, double quote, and control characters; the common ones
rendered with their short escapes). -/

/-- JSON string escaping of one character, as json.dumps emits it. -/
def jsonEscapeChar (c : Char) : List Char :=
  if c = '\\' then ['\\', '\\']
  else if c = '"' then ['\\', '"']
  else if c = '\n' then ['\\', 'n']
  else if c = '\r' then ['\\', 'r']
  else if c = '\t' then ['\\', 't']
  else [c]

/-- A JSON string literal with its quotes. -/
def jsonQuote (s : String) : String :=
  ⟨'"' :: (s.data.flatMap jsonEscapeChar) ++ ['"']⟩

mutual

/-- Compact JSON serialization of a value (json.dumps with "," and ":"
separators, ensure_ascii=False). -/
def serialize : Json → String
  | .null => "null"
  | .bool b => if b then "true" else "false"
  | .num n => n.repr
  | .str s => jsonQuote s
  | .arr xs => "[" ++ ",".intercalate (serializeList xs) ++ "]"
  | .obj kvs => "\x7b" ++ ",".intercalate (serializeEntries kvs) ++ "\x7d"

/-- Serialization of the elements of a JSON array. -/
def serializeList : List Json → List String
  | [] => []
  | x :: t => serialize x :: serializeList t

/-- Serialization of the entries of a JSON object. -/
def serializeEntries : List (String × Json) → List String
  | [] => []
  | (k, v) :: t => (jsonQuote k ++ ":" ++ serialize v) :: serializeEntries t

end

/-! ### src/core/utils/hash.py -/

/-- Sampling threshold of get_file_hash_and_size (hash.py line 19). -/
def SAMPLE : Nat := 64 * 1024

/-- Decimal text of the file size, as bytes (ASCII digits). -/
def sizeTextBytes (n : Nat) : List Nat := (Nat.repr n).data.map Char.toNat

/-- The exact byte sequence get_file_hash_and_size feeds to MD5 (hash.py
lines 10-35): always the size text first; then the full content for files
of at most 2*SAMPLE bytes, else the first and last SAMPLE bytes.  The file
is modelled by its byte content; MD5 itself is kept abstract (equal inputs
hash equal, distinct inputs are treated as distinct signatures). -/
def get_file_hash_input (content : List Nat) : List Nat :=
  let file_size := content.length
  sizeTextBytes file_size ++
    (if file_size ≤ SAMPLE * 2 then content
     else content.take SAMPLE ++ content.drop (file_size - SAMPLE))

/-- The byte sequence the specification's words describe for the file
signature, stated for comparison with the source: size text + head + tail
for files over 128 KiB, and the bare byte stream otherwise.  This follows
the claim's wording, not the source. -/
def claimed_file_hash_input (content : List Nat) : List Nat :=
  if 128 * 1024 < content.length then
    sizeTextBytes content.length ++
      content.take (64 * 1024) ++ content.drop (content.length - 64 * 1024)
  else content

/-- Python `needle in data` as _calculate_data_hash uses it on the raw
document: key membership for dicts, element equality for lists, substring
for strings; a TypeError (modelled as the error case) for scalars. -/
def pyInJson (needle : String) : Json → Except Unit Bool
  | .obj kvs => .ok (dmem kvs needle)
  | .arr xs => .ok (xs.any (fun x => match x with
      | .str s => s = needle
      | _ => false))
  | .str s => .ok (strInStr needle s)
  | _ => .error ()

/-- The document whose serialization _calculate_data_hash fingerprints
(hash.py lines 47-52): conditionally normalized, before deterministic_sort.
The error case models the TypeError of the membership test, which the
source catches and degrades to a timestamp. -/
def hashPrep (d : Json) : Except Unit Json :=
  match pyInJson "name" d with
  | .error _ => .error ()
  | .ok true => .ok (normalize_card_v3 d)
  | .ok false =>
      match pyInJson "data" d with
      | .error _ => .error ()
      | .ok b => .ok (if b then normalize_card_v3 d else d)

/-- _calculate_data_hash (hash.py lines 40-59), with MD5 abstracted away:
the fingerprint is modelled by the compact serialization of the sorted,
conditionally-normalized document (equal strings give equal MD5 digests).
none models the non-deterministic timestamp fallback of the except branch;
falsy input returns the fixed empty fingerprint. -/
def calculate_data_hash (d : Json) : Option String :=
  if truthy d = false then some ""
  else match hashPrep d with
    | .error _ => none
    | .ok d' => some (serialize (deterministic_sort d'))

/-! ### src/core/automation/constants.py -/

/-- FIELD_MAP: frontend display name → internal data path. -/
def FIELD_MAP : List (String × String) :=
  [("char_name", "char_name"),
   ("description", "description"),
   ("creator", "creator"),
   ("char_version", "char_version"),
   ("first_mes", "first_mes"),
   ("mes_example", "mes_example"),
   ("tags", "tags"),
   ("alternate_greetings", "alternate_greetings"),
   ("ui_summary", "ui_summary"),
   ("is_favorite", "is_favorite"),
   ("token_count", "token_count"),
   ("file_size", "file_size"),
   ("wi_name", "character_book"),
   ("wi_content", "character_book"),
   ("regex_name", "extensions.regex_scripts"),
   ("regex_content", "extensions.regex_scripts"),
   ("st_script_name", "extensions.tavern_helper"),
   ("st_script_content", "extensions.tavern_helper")]

/-- FIELD_MAP.get(raw_field, raw_field) for a string key. -/
def fieldMapGet (k : String) : String :=
  match FIELD_MAP.lookup k with
  | some v => v
  | none => k

/-! ### src/core/automation/engine.py : AutomationEngine

Python exceptions escaping a method are modelled by Except Unit; every
raising path of the source (attribute errors on non-dict .get, TypeError on
iterating non-iterables or indexing with unhashables, KeyError on missing
required keys) maps to .error.  _check_condition wraps its whole body in
try/except returning False, so it is a total Bool function.  The re module
is an oracle parameter: regexSearch pattern text ignorecase = none models a
pattern that raises re.error. -/

/-- Oracle for re.search: pattern, subject, ignore-case flag; none models an
invalid pattern (re.error). -/
def RegexSearch : Type := String → String → Bool → Option Bool

/-- Python `x or y` (first truthy operand, else the last). -/
def pyOr (a b : Json) : Json := if truthy a then a else b

/-- Python iteration `for x in v`: lists yield elements, strings yield
one-character strings, dicts yield their keys; everything else raises
TypeError. -/
def pyIter : Json → Except Unit (List Json)
  | .arr xs => .ok xs
  | .str s => .ok (s.data.map (fun c => .str ⟨[c]⟩))
  | .obj kvs => .ok (kvs.map (fun p => Json.str p.1))
  | _ => .error ()

/-- Python `v.get(k)` with default, requiring v to be a dict: the error case
models the AttributeError of .get on a non-dict. -/
def pyGetAttr (v : Json) (k : String) (dflt : Json) : Except Unit Json :=
  match v with
  | .obj kvs => .ok ((dget kvs k).getD dflt)
  | _ => .error ()

/-- str(s.get(key, default)) over the dict entries of a list, skipping
non-dict elements — the comprehension pattern of _get_field_value. -/
def strOfEntries (xs : List Json) (key : String) (dflt : Json) : List Json :=
  xs.filterMap (fun s => match s with
    | .obj skvs => some (.str (pyStr ((dget skvs key).getD dflt)))
    | _ => none)

/-- The scripts payload of extensions.tavern_helper: the first list item of
length ≥ 2 whose label (index 0) equals "scripts"; its payload if that is a
list, else an empty list (engine.py lines 60-70). -/
def tavernScripts (items : List Json) : List Json :=
  match items.find? (fun it => match it with
    | .arr (.str l :: _ :: _) => l = "scripts"
    | _ => false) with
  | some (.arr (_ :: .arr ys :: _)) => ys
  | _ => []

/-- World-info entries: a dict of entries is converted to the list of its
values (engine.py lines 35-36 and 177). -/
def wiEntries (entries : Json) : Json :=
  match entries with
  | .obj e => .arr (e.map (fun p => p.2))
  | x => x

/-- The interleaved content/comment sequence for full-text search
(engine.py lines 44-50). -/
def wiSearchable (es : List Json) : List Json :=
  es.flatMap (fun e => match e with
    | .obj ek => [Json.str (pyStr ((dget ek "content").getD (.str ""))),
                  Json.str (pyStr ((dget ek "comment").getD (.str "")))]
    | _ => [])

/-- Python equality of a value against a string literal (`v == "lit"`):
true only for the equal string. -/
def isStr (v : Json) (s : String) : Bool :=
  match v with
  | .str t => t = s
  | _ => false

/-- AutomationEngine._get_field_value (engine.py lines 11-90) for a string
field key.  The caller passes specific_target = the raw condition field (a
Json value compared against string literals). -/
def getFieldValueStr (card : List (String × Json)) (fk : String)
    (specificTarget : Json) : Except Unit Json :=
  if fk = "extensions.regex_scripts" ∨ fk = "regex_scripts" then do
    let ext ← pyGetAttr (.obj card) "extensions" (.obj [])
    let scripts0 ← pyGetAttr ext "regex_scripts" .null
    let scripts := if truthy scripts0 then scripts0
      else (dget card "regex_scripts").getD (.arr [])
    match scripts with
    | .arr xs =>
        if isStr specificTarget "regex_content" then
          .ok (.arr (xs.filterMap (fun s => match s with
            | .obj skvs => some (.str (pyStr (pyOr
                (pyOr ((dget skvs "findRegex").getD .null)
                  ((dget skvs "regex").getD .null)) (.str ""))))
            | _ => none)))
        else .ok (.arr (strOfEntries xs "scriptName" (.str "")))
    | _ => .ok (.arr [])
  else if fk = "character_book" then do
    let book := (dget card "character_book").getD (.obj [])
    let entries0 ← pyGetAttr book "entries" (.arr [])
    match wiEntries entries0 with
    | .arr es =>
        if isStr specificTarget "wi_content" then
          .ok (.arr (strOfEntries es "content" (.str "")))
        else if isStr specificTarget "wi_name" then
          .ok (.arr (strOfEntries es "comment" (.str "")))
        else .ok (.arr (wiSearchable es))
    | _ => .ok (.arr [])
  else if fk = "extensions.tavern_helper" then do
    let ext ← pyGetAttr (.obj card) "extensions" (.obj [])
    let helper ← pyGetAttr ext "tavern_helper" (.arr [])
    match helper with
    | .arr items =>
        let scriptsList := tavernScripts items
        if isStr specificTarget "st_script_content" then
          .ok (.arr (strOfEntries scriptsList "content" (.str "")))
        else .ok (.arr (strOfEntries scriptsList "name" (.str "")))
    | _ => .ok (.arr [])
  else if strHasChar fk '.' then
    .ok (walkPath (.obj card) ((splitChar '.' fk.data).map (fun cs => ⟨cs⟩)))
  else .ok ((dget card fk).getD .null)
where
  /-- Generic dotted-path traversal (engine.py lines 80-88): walk nested
  dicts, returning None as soon as a non-dict is hit early. -/
  walkPath : Json → List String → Json
    | v, [] => v
    | .obj kvs, k :: rest => walkPath ((dget kvs k).getD .null) rest
    | _, _ :: _ => .null

/-- AutomationEngine._get_field_value on an arbitrary field-key value: a
falsy key returns None (line 13); a truthy non-string key always ends in a
TypeError (on the `"." in field_key` test or the dict lookup). -/
def getFieldValue (card : List (String × Json)) (fieldKey : Json)
    (specificTarget : Json) : Except Unit Json :=
  if truthy fieldKey = false then .ok .null
  else match fieldKey with
    | .str fk => getFieldValueStr card fk specificTarget
    | _ => .error ()

/-! ### engine.py : _check_condition -/

/-- Python `value is None`. -/
def isNull : Json → Bool
  | .null => true
  | _ => false

/-- Python `value == ""`. -/
def isEmptyStr : Json → Bool
  | .str "" => true
  | _ => false

/-- Python `value == []`. -/
def isEmptyArr : Json → Bool
  | .arr [] => true
  | _ => false

/-- Decimal digit sequence to a natural number. -/
def digitsToNat : List Char → Option Nat
  | [] => none
  | cs => if cs.all Char.isDigit
      then some (cs.foldl (fun acc c => acc * 10 + (c.toNat - 48)) 0)
      else none

/-- Python float() coercion, modelled for the integer-valued inputs the
claims use: numbers pass through, booleans coerce to 0/1, integer-literal
strings (with optional surrounding whitespace and sign) parse; anything
else — including non-integer numerals, which the integer number model
cannot represent — is treated as unparseable. -/
def pyFloat : Json → Option Int
  | .num n => some n
  | .bool b => some (if b then 1 else 0)
  | .str s =>
      (match (pyStrip s).data with
       | '-' :: ds => (digitsToNat ds).map (fun n => -(n : Int))
       | '+' :: ds => (digitsToNat ds).map (fun n => (n : Int))
       | ds => (digitsToNat ds).map (fun n => (n : Int)))
  | _ => none

/-- The ordering Python sorted() uses on strings, as a Prop relation. -/
def strLeProp (a b : String) : Prop := strLe a b = true

instance : DecidableRel strLeProp := fun a b =>
  instDecidableEqBool (strLe a b) true

/-- Python sorted() on a list of strings (stable; modelled by insertion
sort, which agrees with any stable comparison sort). -/
def pySorted (l : List String) : List String := List.insertionSort strLeProp l

/-- Python `"," in target_value` inside the eq branch: substring test for
strings, element test for lists, key test for dicts, TypeError otherwise. -/
def pyInComma : Json → Except Unit Bool
  | .str t => .ok (strHasChar t ',')
  | .arr xs => .ok (xs.any (fun x => isStr x ","))
  | .obj kvs => .ok (dmem kvs ",")
  | _ => .error ()

/-- The eq operator on a list value (engine.py lines 126-131): compare the
sorted lower-cased string coercions of the elements against the comma-split
target (each piece stripped and lower-cased) when the target contains a
comma, else against the singleton pre-folded target string.  Raising paths
(TypeError of the membership test, AttributeError of .split on a non-string)
fall into the enclosing except and yield False. -/
def eqListCheck (xs : List Json) (target : Json) (tgtStr : String) : Bool :=
  match pyInComma target with
  | .error _ => false
  | .ok true =>
      match target with
      | .str t =>
          let targetList := (pySplitComma t).map (fun p => pyLower (pyStrip p))
          let valueList := xs.map (fun v => pyLower (pyStr v))
          pySorted valueList == pySorted targetList
      | _ => false
  | .ok false =>
      let valueList := xs.map (fun v => pyLower (pyStr v))
      pySorted valueList == pySorted [tgtStr]

/-- AutomationEngine._check_condition (engine.py lines 92-164).  The whole
body is wrapped in try/except returning False, so the model is a total Bool
function; every raising path maps to false.  operator and target are raw
Json values from the condition dict; case_sensitive is the truthiness of
the condition's case_sensitive entry. -/
def checkCondition (rx : RegexSearch) (value operator target : Json)
    (cs : Bool) : Bool :=
  if isStr operator "exists" then
    !isNull value && !isEmptyStr value && !isEmptyArr value
  else if isStr operator "not_exists" then
    isNull value || isEmptyStr value || isEmptyArr value
  else if isNull value then false
  else if isStr operator "gt" || isStr operator "lt" then
    match pyFloat value, pyFloat target with
    | some v, some t => if isStr operator "gt" then t < v else v < t
    | _, _ => false
  else if isStr operator "is_true" || isStr operator "is_false" then
    let boolVal := ["true", "1", "yes", "on"].contains (pyLower (pyStr value))
    if isStr operator "is_true" then boolVal else !boolVal
  else
    let valStr0 := pyStr value
    let tgtStr0 := pyStr target
    let fold := !cs && !isStr operator "regex"
    let valStr := if fold then pyLower valStr0 else valStr0
    let tgtStr := if fold then pyLower tgtStr0 else tgtStr0
    if isStr operator "eq" then
      match value with
      | .arr xs => eqListCheck xs target tgtStr
      | _ => valStr == tgtStr
    else if isStr operator "neq" then
      valStr != tgtStr
    else if isStr operator "contains" then
      match value with
      | .arr xs =>
          if !cs then xs.any (fun v => tgtStr == pyLower (pyStr v))
          else xs.any (fun v => pyStr target == pyStr v)
      | _ => strInStr tgtStr valStr
    else if isStr operator "not_contains" then
      match value with
      | .arr xs =>
          if !cs then !(xs.any (fun v => pyLower (pyStr v) == tgtStr))
          else !(xs.any (fun v => pyStr v == pyStr target))
      | _ => !strInStr tgtStr valStr
    else if isStr operator "regex" then
      match target with
      | .str pat =>
          match rx pat (pyStr value) (!cs) with
          | some b => b
          | none => false
      | _ => false
    else false

/-! ### engine.py : evaluate -/

/-- Evaluation of one condition (engine.py lines 218-231): look up the raw
field (KeyError if absent), map it through FIELD_MAP (a TypeError for
unhashable keys), resolve the value and check the condition.  A non-dict
condition raises (string/int indexing). -/
def condEval (rx : RegexSearch) (card : List (String × Json)) (cond : Json) :
    Except Unit Bool :=
  match cond with
  | .obj ckvs => do
      let rawField ← match dget ckvs "field" with
        | some v => Except.ok v
        | none => Except.error ()
      let mappedField : Json ← match rawField with
        | .str s => Except.ok (Json.str (fieldMapGet s))
        | .arr _ => Except.error ()
        | .obj _ => Except.error ()
        | v => Except.ok v
      let op ← match dget ckvs "operator" with
        | some v => Except.ok v
        | none => Except.error ()
      let val := (dget ckvs "value").getD .null
      let case := truthy ((dget ckvs "case_sensitive").getD (.bool false))
      let actualVal ← getFieldValue card mappedField rawField
      .ok (checkCondition rx actualVal op val case)
  | _ => .error ()

/-- Combination of condition results by a group or rule logic string
(upper-cased): AND means all, anything else means any (engine.py lines
234-237 and 243-246). -/
def combineLogic (logic : String) (results : List Bool) : Bool :=
  if pyUpper logic = "AND" then results.all id else results.any id

/-- Evaluation of one condition group (engine.py lines 207-239): the logic
string is read (and .upper() applied — an AttributeError for a non-string)
before the empty check; a falsy conditions value yields False; otherwise
every condition is evaluated and combined. -/
def groupEval (rx : RegexSearch) (card : List (String × Json)) (group : Json) :
    Except Unit Bool :=
  match group with
  | .obj g => do
      let conditions := (dget g "conditions").getD (.arr [])
      let logic ← match (dget g "logic").getD (.str "AND") with
        | .str s => Except.ok s
        | _ => Except.error ()
      if truthy conditions = false then .ok false
      else do
        let cs ← pyIter conditions
        let results ← cs.mapM (condEval rx card)
        .ok (combineLogic logic results)
  | _ => .error ()

/-- Normalization of a rule's groups (engine.py lines 187-194): a falsy
groups value together with a truthy legacy conditions value is wrapped into
one implicit AND group. -/
def ruleGroups (r : List (String × Json)) : Json :=
  let gs := (dget r "groups").getD (.arr [])
  if truthy gs = false ∧ truthy ((dget r "conditions").getD .null) then
    .arr [.obj [("logic", .str "AND"),
                ("conditions", (dget r "conditions").getD (.arr []))]]
  else gs

/-- Processing of one rule inside evaluate (engine.py lines 183-256):
returns the actions this rule contributes and whether evaluation of the
ruleset stops (a truthy stop_on_match on a matching rule).  A disabled rule
and a rule with no (normalized) groups contribute nothing. -/
def ruleStep (rx : RegexSearch) (card : List (String × Json)) (rule : Json) :
    Except Unit (List Json × Bool) :=
  match rule with
  | .obj r =>
      if truthy ((dget r "enabled").getD (.bool true)) = false then .ok ([], false)
      else
        let gs := ruleGroups r
        if truthy gs = false then .ok ([], false)
        else do
          let logic ← match (dget r "logic").getD (.str "OR") with
            | .str s => Except.ok s
            | _ => Except.error ()
          let gl ← pyIter gs
          let results ← gl.mapM (groupEval rx card)
          if combineLogic logic results then do
            let acts ← pyIter ((dget r "actions").getD (.arr []))
            .ok (acts, truthy ((dget r "stop_on_match").getD .null))
          else .ok ([], false)
  | _ => .error ()

/-- The rule loop of evaluate: accumulate actions of matching rules in
order, breaking after a matching rule with truthy stop_on_match. -/
def rulesFold (rx : RegexSearch) (card : List (String × Json)) :
    List Json → List Json → Except Unit (List Json)
  | [], acc => .ok acc
  | rule :: rest, acc => do
      let (acts, stop) ← ruleStep rx card rule
      if stop then .ok (acc ++ acts) else rulesFold rx card rest (acc ++ acts)

/-- The content/comment concatenation precomputed for fuzzy world-info
search (engine.py line 179). -/
def combinedWI (es : List Json) : String :=
  " ".intercalate (es.filterMap (fun e => match e with
    | .obj ek => some (pyStr ((dget ek "content").getD (.str "")) ++ " " ++
        pyStr ((dget ek "comment").getD (.str "")))
    | _ => none))

/-- The world-info precompute step of evaluate (engine.py lines 175-180):
for a truthy character_book, read entries (an AttributeError on a non-dict
book), convert a dict of entries to its values, and when the result is a
list store the combined search string under character_book_content. -/
def precompute (card : List (String × Json)) :
    Except Unit (List (String × Json)) :=
  let cb := (dget card "character_book").getD .null
  if truthy cb = false then .ok card
  else match cb with
    | .obj b =>
        let entries0 := (dget b "entries").getD (.arr [])
        match wiEntries entries0 with
        | .arr es => .ok (dset card "character_book_content"
            (.str (combinedWI es)))
        | _ => .ok card
    | _ => .error ()

/-- AutomationEngine.evaluate (engine.py lines 166-258): precompute the
world-info search field on the card, then run the rules in order, returning
the (possibly augmented) card state together with the plan.  The plan dict
`{"actions": [...]}` is returned as such.  The ruleset is only ever read by
the source (no assignment targets it), so the model leaves it a plain input.
Non-dict card or ruleset values raise on their first .get. -/
def evaluate (rx : RegexSearch) (card ruleset : Json) :
    Except Unit (List (String × Json) × Json) :=
  match card with
  | .obj ckvs => do
      let card' ← precompute ckvs
      match ruleset with
      | .obj rkvs => do
          let rules ← pyIter ((dget rkvs "rules").getD (.arr []))
          let acts ← rulesFold rx card' rules []
          .ok (card', .obj [("actions", .arr acts)])
      | _ => .error ()
  | _ => .error ()

/-! ### src/core/automation/executor.py : AutomationExecutor.apply_plan

The two collaborators (card_service.modify_card_attributes_internal and
card_service.move_card_internal) are external to the verified core (their
module is not part of the automation engine); they are modelled as oracle
functions.  Observable call order and the identifiers passed are recorded
in an event trace. -/

/-- A collaborator call made by apply_plan, with the identifier it used. -/
inductive ExecEvent where
  | modifyCall (id : String) (addTags removeTags : List Json) (fav : Option Json)
  | moveCall (id : String) (target : Json)

/-- The result dict apply_plan builds (executor.py lines 13-18 and 47). -/
structure ExecResult where
  moved_to : Option Json
  tags_added : List Json
  tags_removed : List Json
  fav_changed : Bool
  final_id : String

/-- The plan as apply_plan's docstring describes it: tag sets (modelled in
their iteration order), an optional favorite value (none models absence or
None) and an optional move target. -/
structure PlanInput where
  add_tags : List Json
  remove_tags : List Json
  favorite : Option Json
  move : Option Json

/-- AutomationExecutor.apply_plan (executor.py lines 7-48): attribute
mutations first against the current identifier, then the move; a failed
move leaves the identifier as it was and rolls nothing back. -/
def apply_plan (modifyFn : String → List Json → List Json → Option Json → Bool)
    (moveFn : String → Json → Bool × String × String)
    (card_id : String) (plan : PlanInput) : ExecResult × List ExecEvent :=
  let current_id := card_id
  let modifyNeeded := !plan.add_tags.isEmpty || !plan.remove_tags.isEmpty ||
    plan.favorite.isSome
  let (r1, ev1) :=
    if modifyNeeded then
      let success := modifyFn current_id plan.add_tags plan.remove_tags
        plan.favorite
      (if success then
        (plan.add_tags, plan.remove_tags, plan.favorite.isSome)
       else ([], [], false),
       [ExecEvent.modifyCall current_id plan.add_tags plan.remove_tags
         plan.favorite])
    else (([], [], false), [])
  match plan.move with
  | some target =>
      let (ok, new_id, _msg) := moveFn current_id target
      let final := if ok then new_id else current_id
      let movedTo := if ok then some target else none
      (⟨movedTo, r1.1, r1.2.1, r1.2.2, final⟩,
       ev1 ++ [ExecEvent.moveCall current_id target])
  | none => (⟨none, r1.1, r1.2.1, r1.2.2, current_id⟩, ev1)

/-! ### src/core/automation/manager.py : save_ruleset id computation

save_ruleset persists to the filesystem; the verified part is the pure
computation of the new ruleset id.  The filesystem state is modelled by the
list of ids whose .json files exist in the rules directory. -/

/-- RuleManager._sanitize_filename (manager.py lines 18-22): strip, replace
the illegal filename characters by underscores, default an empty result. -/
def sanitize_filename (name : String) : String :=
  let stripped := pyStrip name
  let replaced : String :=
    ⟨stripped.data.map (fun c =>
      if c ∈ ['\\', '/', '*', '?', ':', '"', '<', '>', '|'] then '_' else c)⟩
  if replaced = "" then "Untitled_Ruleset" else replaced

/-- The numeric-suffix collision loop of save_ruleset (manager.py lines
83-87): try base_1, base_2, … until a free name is found.  The fuel is one
more than the number of existing files, which the while loop can never
exceed (each taken candidate is a distinct existing entry). -/
def collisionLoop (existing : List String) (base : String) :
    Nat → Nat → String
  | 0, counter => base ++ "_" ++ Nat.repr counter
  | fuel + 1, counter =>
      let cand := base ++ "_" ++ Nat.repr counter
      if cand ∈ existing then collisionLoop existing base fuel (counter + 1)
      else cand

/-- Collision resolution from a base name: the base itself if free, else
the first free numbered candidate. -/
def resolveFree (existing : List String) (base : String) : String :=
  if base ∈ existing then collisionLoop existing base (existing.length + 1) 1
  else base

/-- The new ruleset id save_ruleset computes (manager.py lines 70-87): the
sanitized display name, except that saving under a name equal to the old id
case-insensitively keeps the old id (original casing, no collision check).
old_ruleset_id = none models None (a new ruleset); the empty string is
falsy and behaves like None. -/
def save_ruleset_id (existing : List String) (old_ruleset_id : Option String)
    (meta_name : String) : String :=
  let base := sanitize_filename meta_name
  match old_ruleset_id with
  | some oid =>
      if oid ≠ "" ∧ pyLower oid = pyLower base then oid
      else resolveFree existing base
  | none => resolveFree existing base

/-! ### Shape well-formedness

The data model of the specification (§3): cards are string-keyed mapping
trees whose character_book and extensions, when present, are mappings;
rulesets carry a list of rule mappings with string logic, group lists,
condition mappings having a string field and an operator, and action lists.
On these shapes the engine never raises; the predicates below state exactly
what evaluate's raising paths require. -/

/-- A card document shape on which evaluate and the field resolver cannot
raise: character_book and extensions, when present, are mappings. -/
def wfCardKvs (kvs : List (String × Json)) : Bool :=
  (match dget kvs "character_book" with
   | none => true
   | some (.obj _) => true
   | some _ => false) &&
  (match dget kvs "extensions" with
   | none => true
   | some (.obj _) => true
   | some _ => false)

/-- A condition mapping with a string field and an operator entry. -/
def wfCond (c : Json) : Bool :=
  match c with
  | .obj k =>
      (match dget k "field" with
       | some (.str _) => true
       | _ => false) &&
      (dget k "operator").isSome
  | _ => false

/-- A group mapping with a string (or absent) logic and, when truthy, a
list of well-formed conditions. -/
def wfGroup (g : Json) : Bool :=
  match g with
  | .obj k =>
      (match (dget k "logic").getD (.str "AND") with
       | .str _ => true
       | _ => false) &&
      (let conds := (dget k "conditions").getD (.arr [])
       truthy conds = false ||
         (match conds with
          | .arr cs => cs.all wfCond
          | _ => false))
  | _ => false

/-- A rule mapping with string (or absent) logic, well-formed groups (or
wrappable legacy conditions) and a list (or absent) actions value. -/
def wfRule (r : Json) : Bool :=
  match r with
  | .obj k =>
      (match (dget k "logic").getD (.str "OR") with
       | .str _ => true
       | _ => false) &&
      (let gs := ruleGroups k
       truthy gs = false ||
         (match gs with
          | .arr gl => gl.all wfGroup
          | _ => false)) &&
      (match (dget k "actions").getD (.arr []) with
       | .arr _ => true
       | _ => false)
  | _ => false

/-- A ruleset mapping whose rules value, when present, is a list of
well-formed rules. -/
def wfRuleset (rs : Json) : Bool :=
  match rs with
  | .obj k =>
      (match (dget k "rules").getD (.arr []) with
       | .arr rl => rl.all wfRule
       | _ => false)
  | _ => false

/-! ### Key-order canonical form

Two documents "differing only in key order" are formalised as having the
same key-canonical form: every dict's entries sorted by key, recursively.
On duplicate-free keys (the only dicts Python can produce) this is a
complete invariant of key reordering. -/

/-- Duplicate-freedom of a dict's keys (guaranteed for Python dicts). -/
def keysNodup : List (String × Json) → Bool
  | [] => true
  | (k, _) :: t => !dmem t k && keysNodup t

mutual

/-- Canonical form under key reordering: sort every dict by key. -/
def keyCanon : Json → Json
  | .obj kvs => .obj (List.insertionSort keyLe (keyCanonEntries kvs))
  | .arr xs => .arr (keyCanonList xs)
  | j => j

/-- keyCanon over list elements. -/
def keyCanonList : List Json → List Json
  | [] => []
  | x :: t => keyCanon x :: keyCanonList t

/-- keyCanon over dict values. -/
def keyCanonEntries : List (String × Json) → List (String × Json)
  | [] => []
  | (k, v) :: t => (k, keyCanon v) :: keyCanonEntries t

end

mutual

/-- Every dict in the tree has duplicate-free keys. -/
def nodupRec : Json → Bool
  | .obj kvs => keysNodup kvs && nodupRecEntries kvs
  | .arr xs => nodupRecList xs
  | _ => true

/-- nodupRec over list elements. -/
def nodupRecList : List Json → Bool
  | [] => true
  | x :: t => nodupRec x && nodupRecList t

/-- nodupRec over dict values. -/
def nodupRecEntries : List (String × Json) → Bool
  | [] => true
  | (_, v) :: t => nodupRec v && nodupRecEntries t

end

/-! ## Lemmas about the dict primitives -/

theorem dget_dset_self (l : List (String × Json)) (k : String) (v : Json) :
    dget (dset l k v) k = some v := by
  induction l with
  | nil => simp [dset, dget]
  | cons h t ih =>
      obtain ⟨k', v'⟩ := h
      by_cases hk : k' = k
      · simp [dset, dget, hk]
      · simp [dset, dget, hk, ih]

theorem dget_dset_ne (l : List (String × Json)) (k k' : String) (v : Json)
    (h : k' ≠ k) : dget (dset l k v) k' = dget l k' := by
  have h' : ¬k = k' := fun hh => h hh.symm
  induction l with
  | nil => simp [dset, dget, h']
  | cons hd t ih =>
      obtain ⟨k0, v0⟩ := hd
      by_cases hk : k0 = k
      · subst hk
        simp [dset, dget, h']
      · simp [dset, dget, hk, ih]

theorem dset_dget_eq (l : List (String × Json)) (k : String) (v : Json)
    (h : dget l k = some v) : dset l k v = l := by
  induction l with
  | nil => simp [dget] at h
  | cons hd t ih =>
      obtain ⟨k0, v0⟩ := hd
      by_cases hk : k0 = k
      · subst hk
        simp [dget] at h
        simp [dset, h]
      · simp [dget, hk] at h
        simp [dset, hk, ih h]

theorem dmem_eq_isSome (l : List (String × Json)) (k : String) :
    dmem l k = (dget l k).isSome := by
  induction l with
  | nil => simp [dmem, dget]
  | cons hd t ih =>
      obtain ⟨k0, v0⟩ := hd
      by_cases hk : k0 = k
      · simp [dmem, dget, hk]
      · simp [dmem, dget, hk, ih]

theorem dget_derase_ne (l : List (String × Json)) (k k' : String)
    (h : k' ≠ k) : dget (derase l k) k' = dget l k' := by
  induction l with
  | nil => simp [derase, dget]
  | cons hd t ih =>
      obtain ⟨k0, v0⟩ := hd
      have h' : ¬k = k' := fun hh => h hh.symm
      by_cases hk : k0 = k
      · simp [derase, dget, hk, h', ih]
      · simp [derase, dget, hk, ih]

theorem dmem_derase_self (l : List (String × Json)) (k : String) :
    dmem (derase l k) k = false := by
  induction l with
  | nil => simp [derase, dmem]
  | cons hd t ih =>
      obtain ⟨k0, v0⟩ := hd
      by_cases hk : k0 = k
      · simp [derase, hk, ih]
      · simp [derase, dmem, hk, ih]

theorem dmem_derase_ne (l : List (String × Json)) (k k' : String)
    (h : k' ≠ k) : dmem (derase l k) k' = dmem l k' := by
  rw [dmem_eq_isSome, dmem_eq_isSome, dget_derase_ne l k k' h]

theorem derase_of_dmem_false (l : List (String × Json)) (k : String)
    (h : dmem l k = false) : derase l k = l := by
  induction l with
  | nil => simp [derase]
  | cons hd t ih =>
      obtain ⟨k0, v0⟩ := hd
      simp [dmem] at h
      simp [derase, h.1, ih h.2]

theorem dmem_dset_self (l : List (String × Json)) (k : String) (v : Json) :
    dmem (dset l k v) k = true := by
  rw [dmem_eq_isSome, dget_dset_self]
  rfl

theorem dmem_dset_ne (l : List (String × Json)) (k k' : String) (v : Json)
    (h : k' ≠ k) : dmem (dset l k v) k' = dmem l k' := by
  rw [dmem_eq_isSome, dmem_eq_isSome, dget_dset_ne l k k' v h]

theorem dmem_dset_mono (l : List (String × Json)) (k k' : String) (v : Json)
    (h : dmem l k' = true) : dmem (dset l k v) k' = true := by
  by_cases hk : k' = k
  · subst hk
    exact dmem_dset_self l k' v
  · rw [dmem_dset_ne l k k' v hk]
    exact h

/-! ## Stage lemmas for normalize_card_v3 -/

/-- A core field's root value is effectively absent for the sync loop:
missing, or present as None. -/
def rootValNullish (kvs : List (String × Json)) (f : String) : Prop :=
  rootVal kvs f = none ∨ rootVal kvs f = some .null

theorem migrateRoot_data (kvs0 : List (String × Json)) :
    ∃ d, dget (migrateRoot kvs0) "data" = some (.obj d) := by
  unfold migrateRoot
  split
  · next _ d _ => exact ⟨d, by assumption⟩
  · next => exact ⟨_, dget_dset_self _ _ _⟩

theorem migrateRoot_of_data (kvs : List (String × Json))
    (d : List (String × Json)) (h : dget kvs "data" = some (.obj d)) :
    migrateRoot kvs = kvs := by
  unfold migrateRoot
  rw [h]

theorem dataBlockOf_eq (kvs : List (String × Json)) (d : List (String × Json))
    (h : dget kvs "data" = some (.obj d)) : dataBlockOf kvs = d := by
  unfold dataBlockOf
  rw [h]

theorem specHeaders_spec (l : List (String × Json)) :
    dget (specHeaders l) "spec" = some (.str "chara_card_v3") := by
  unfold specHeaders
  rw [dget_dset_ne _ _ _ _ (by decide), dget_dset_self]

theorem specHeaders_specv (l : List (String × Json)) :
    dget (specHeaders l) "spec_version" = some (.str "3.0") :=
  dget_dset_self _ _ _

theorem dget_specHeaders_ne (l : List (String × Json)) (k : String)
    (h1 : k ≠ "spec") (h2 : k ≠ "spec_version") :
    dget (specHeaders l) k = dget l k := by
  unfold specHeaders
  rw [dget_dset_ne _ _ _ _ h2, dget_dset_ne _ _ _ _ h1]

theorem specHeaders_eq_self (l : List (String × Json))
    (h1 : dget l "spec" = some (.str "chara_card_v3"))
    (h2 : dget l "spec_version" = some (.str "3.0")) : specHeaders l = l := by
  unfold specHeaders
  rw [dset_dget_eq _ _ _ h1, dset_dget_eq _ _ _ h2]

theorem dmem_syncField_mono (kvs db : List (String × Json)) (f g : String)
    (h : dmem db g = true) : dmem (syncField kvs db f) g = true := by
  unfold syncField
  split
  · exact h
  · split
    · exact h
    · exact dmem_dset_mono _ _ _ _ h
    · exact h

theorem syncField_establish (kvs db : List (String × Json)) (f : String) :
    dmem (syncField kvs db f) f = true ∨ rootValNullish kvs f := by
  unfold syncField
  split
  · next h => exact Or.inl h
  · split
    · next h => exact Or.inr (Or.inr h)
    · exact Or.inl (dmem_dset_self _ _ _)
    · next h => exact Or.inr (Or.inl h)

theorem syncField_noop (kvs db : List (String × Json)) (f : String)
    (h : dmem db f = true ∨ rootValNullish kvs f) : syncField kvs db f = db := by
  unfold syncField
  by_cases hm : dmem db f
  · simp [hm]
  · rcases h with h | h | h
    · exact absurd h hm
    · simp [hm, h]
    · simp [hm, h]

theorem dmem_syncFold_mono (kvs : List (String × Json)) (fs : List String) :
    ∀ db g, dmem db g = true → dmem (fs.foldl (syncField kvs) db) g = true := by
  induction fs with
  | nil => exact fun db g h => h
  | cons f0 t ih =>
      intro db g h
      rw [List.foldl_cons]
      exact ih _ g (dmem_syncField_mono kvs db f0 g h)

theorem syncFold_establish (kvs : List (String × Json)) (fs : List String) :
    ∀ db f, f ∈ fs →
      dmem (fs.foldl (syncField kvs) db) f = true ∨ rootValNullish kvs f := by
  induction fs with
  | nil => intro db f hf; cases hf
  | cons f0 t ih =>
      intro db f hf
      rw [List.foldl_cons]
      rcases List.mem_cons.mp hf with hf | hf
      · subst hf
        rcases syncField_establish kvs db f with h | h
        · exact Or.inl (dmem_syncFold_mono kvs t _ f h)
        · exact Or.inr h
      · exact ih _ f hf

theorem syncFold_noop (kvs : List (String × Json)) (fs : List String)
    (db : List (String × Json))
    (h : ∀ f ∈ fs, dmem db f = true ∨ rootValNullish kvs f) :
    fs.foldl (syncField kvs) db = db := by
  induction fs with
  | nil => rfl
  | cons f0 t ih =>
      rw [List.foldl_cons, syncField_noop kvs db f0 (h f0 (List.mem_cons_self f0 t))]
      exact ih (fun f hf => h f (List.mem_cons_of_mem f0 hf))

theorem relocate_fst_self (key : String)
    (p : List (String × Json) × List (String × Json)) :
    dmem (relocate key p).1 key = false := by
  unfold relocate
  by_cases h : dmem p.1 key
  · simp [h, dmem_derase_self]
  · simp [h]

theorem relocate_fst_ne (key k : String)
    (p : List (String × Json) × List (String × Json)) (h : k ≠ key) :
    dget (relocate key p).1 k = dget p.1 k := by
  unfold relocate
  by_cases hm : dmem p.1 key
  · simp [hm, dget_derase_ne _ _ _ h]
  · simp [hm]

theorem relocate_fst_dmem_ne (key k : String)
    (p : List (String × Json) × List (String × Json)) (h : k ≠ key) :
    dmem (relocate key p).1 k = dmem p.1 k := by
  rw [dmem_eq_isSome, dmem_eq_isSome, relocate_fst_ne key k p h]

theorem relocate_snd_mono (key g : String)
    (p : List (String × Json) × List (String × Json))
    (h : dmem p.2 g = true) : dmem (relocate key p).2 g = true := by
  unfold relocate
  by_cases hm : dmem p.1 key
  · by_cases hd : dmem p.2 key
    · simp [hm, hd, h]
    · simp [hm, hd, dmem_dset_mono _ _ _ _ h]
  · simp [hm, h]

theorem relocate_of_absent (key : String)
    (p : List (String × Json) × List (String × Json))
    (h : dmem p.1 key = false) : relocate key p = p := by
  unfold relocate
  simp [h]

theorem stripRootOnly_data (db : List (String × Json)) :
    dmem (stripRootOnly db) "data" = false := dmem_derase_self _ _

theorem stripRootOnly_specv (db : List (String × Json)) :
    dmem (stripRootOnly db) "spec_version" = false := by
  unfold stripRootOnly
  rw [dmem_derase_ne _ _ _ (by decide), dmem_derase_self]

theorem stripRootOnly_spec (db : List (String × Json)) :
    dmem (stripRootOnly db) "spec" = false := by
  unfold stripRootOnly
  rw [dmem_derase_ne _ _ _ (by decide), dmem_derase_ne _ _ _ (by decide),
    dmem_derase_self]

theorem dmem_stripRootOnly_ne (db : List (String × Json)) (f : String)
    (h1 : f ≠ "spec") (h2 : f ≠ "spec_version") (h3 : f ≠ "data") :
    dmem (stripRootOnly db) f = dmem db f := by
  unfold stripRootOnly
  rw [dmem_derase_ne _ _ _ h3, dmem_derase_ne _ _ _ h2, dmem_derase_ne _ _ _ h1]

theorem stripRootOnly_noop (db : List (String × Json))
    (h1 : dmem db "spec" = false) (h2 : dmem db "spec_version" = false)
    (h3 : dmem db "data" = false) : stripRootOnly db = db := by
  unfold stripRootOnly
  rw [derase_of_dmem_false _ _ h1, derase_of_dmem_false _ _ h2,
    derase_of_dmem_false _ _ h3]

theorem rootVal_congr (kvs kvs' : List (String × Json)) (f : String)
    (h1 : dget kvs' (rootKeyFor f) = dget kvs (rootKeyFor f))
    (h2 : dget kvs' f = dget kvs f) : rootVal kvs' f = rootVal kvs f := by
  unfold rootVal
  rw [h1, h2]

theorem relocate_snd_mono2 (key g : String) (a b : List (String × Json))
    (h : dmem b g = true) : dmem (relocate key (a, b)).2 g = true :=
  relocate_snd_mono key g (a, b) h

theorem syncCore_establish (kvs db : List (String × Json)) :
    ∀ f ∈ core_fields,
      dmem (syncCore kvs db) f = true ∨ rootValNullish kvs f :=
  fun f hf => syncFold_establish kvs core_fields db f hf

theorem core_fields_keys :
    ∀ f ∈ core_fields, f ≠ "spec" ∧ f ≠ "spec_version" ∧ f ≠ "data" := by
  decide

theorem rootKeyFor_ne (f : String) (h1 : f ≠ "character_book")
    (h2 : f ≠ "extensions") (h3 : f ≠ "data") :
    rootKeyFor f ≠ "character_book" ∧ rootKeyFor f ≠ "extensions" ∧
      rootKeyFor f ≠ "data" := by
  unfold rootKeyFor
  by_cases hf : f = "creator_notes"
  · rw [if_pos hf]
    refine ⟨?_, ?_, ?_⟩ <;> decide
  · rw [if_neg hf]
    exact ⟨h1, h2, h3⟩

theorem dget_none_of_dmem_false (l : List (String × Json)) (k : String)
    (h : dmem l k = false) : dget l k = none := by
  rw [dmem_eq_isSome] at h
  cases hg : dget l k with
  | none => rfl
  | some v => rw [hg] at h; simp at h

/-- A root dict in which normalize_card_v3's output shape already holds is
a fixed point of the whole pipeline. -/
theorem normOut_fixed (K db : List (String × Json))
    (hd : dget K "data" = some (.obj db))
    (hs1 : dmem db "spec" = false) (hs2 : dmem db "spec_version" = false)
    (hs3 : dmem db "data" = false)
    (hspec : dget K "spec" = some (.str "chara_card_v3"))
    (hspecv : dget K "spec_version" = some (.str "3.0"))
    (hcb : dmem K "character_book" = false)
    (hext : dmem K "extensions" = false)
    (hcore : ∀ f ∈ core_fields, dmem db f = true ∨ rootValNullish K f) :
    normOut K = K := by
  have e1 : migrateRoot K = K := migrateRoot_of_data K db hd
  have e2 : specHeaders K = K := specHeaders_eq_self K hspec hspecv
  have e3 : dataBlockOf K = db := dataBlockOf_eq K db hd
  have e4 : syncCore K db = db := syncFold_noop K core_fields db hcore
  have e5 : relocate "character_book" (K, db) = (K, db) :=
    relocate_of_absent _ _ hcb
  have e6 : relocate "extensions" (K, db) = (K, db) :=
    relocate_of_absent _ _ hext
  have e7 : stripRootOnly db = db := stripRootOnly_noop db hs1 hs2 hs3
  unfold normOut
  simp only [e1, e2, e3, e4, e5, e6, e7]
  exact dset_dget_eq K "data" (.obj db) hd

set_option maxHeartbeats 1000000 in
/-- The output of normalize_card_v3 satisfies the fixed-point shape. -/
theorem normOut_props (kvs0 : List (String × Json)) :
    ∃ db, dget (normOut kvs0) "data" = some (.obj db) ∧
      dmem db "spec" = false ∧ dmem db "spec_version" = false ∧
      dmem db "data" = false ∧
      dget (normOut kvs0) "spec" = some (.str "chara_card_v3") ∧
      dget (normOut kvs0) "spec_version" = some (.str "3.0") ∧
      dmem (normOut kvs0) "character_book" = false ∧
      dmem (normOut kvs0) "extensions" = false ∧
      (∀ f ∈ core_fields, dmem db f = true ∨ rootValNullish (normOut kvs0) f) := by
  set kvs2 := specHeaders (migrateRoot kvs0) with hkvs2
  set db1 := syncCore kvs2 (dataBlockOf (migrateRoot kvs0)) with hdb1
  set p1 := relocate "character_book" (kvs2, db1) with hp1
  set p2 := relocate "extensions" p1 with hp2
  have hK : normOut kvs0 = dset p2.1 "data" (.obj (stripRootOnly p2.2)) := rfl
  have hKdata : dget (normOut kvs0) "data" = some (.obj (stripRootOnly p2.2)) := by
    rw [hK]
    exact dget_dset_self _ _ _
  have hp11 : p1.1 = (relocate "character_book" (kvs2, db1)).1 := by rw [hp1]
  have hKspec : dget (normOut kvs0) "spec" = some (.str "chara_card_v3") := by
    rw [hK, dget_dset_ne _ _ _ _ (by decide), hp2,
      relocate_fst_ne _ _ _ (by decide), hp1,
      relocate_fst_ne _ _ _ (by decide)]
    exact specHeaders_spec _
  have hKspecv : dget (normOut kvs0) "spec_version" = some (.str "3.0") := by
    rw [hK, dget_dset_ne _ _ _ _ (by decide), hp2,
      relocate_fst_ne _ _ _ (by decide), hp1,
      relocate_fst_ne _ _ _ (by decide)]
    exact specHeaders_specv _
  have hKcb : dmem (normOut kvs0) "character_book" = false := by
    rw [hK, dmem_dset_ne _ _ _ _ (by decide), hp2,
      relocate_fst_dmem_ne _ _ _ (by decide), hp1]
    exact relocate_fst_self _ _
  have hKext : dmem (normOut kvs0) "extensions" = false := by
    rw [hK, dmem_dset_ne _ _ _ _ (by decide), hp2]
    exact relocate_fst_self _ _
  refine ⟨stripRootOnly p2.2, hKdata, stripRootOnly_spec _,
    stripRootOnly_specv _, stripRootOnly_data _, hKspec, hKspecv, hKcb, hKext, ?_⟩
  intro f hf
  obtain ⟨hne1, hne2, hne3⟩ := core_fields_keys f hf
  by_cases hfcb : f = "character_book"
  · refine Or.inr (Or.inl ?_)
    unfold rootVal
    have hrk : rootKeyFor f = f := by
      unfold rootKeyFor
      rw [if_neg]
      rw [hfcb]
      decide
    rw [hrk, hfcb, dget_none_of_dmem_false _ _ hKcb]
  · by_cases hfext : f = "extensions"
    · refine Or.inr (Or.inl ?_)
      unfold rootVal
      have hrk : rootKeyFor f = f := by
        unfold rootKeyFor
        rw [if_neg]
        rw [hfext]
        decide
      rw [hrk, hfext, dget_none_of_dmem_false _ _ hKext]
    · rcases syncCore_establish kvs2
        (dataBlockOf (migrateRoot kvs0)) f hf with h | h
      · refine Or.inl ?_
        rw [dmem_stripRootOnly_ne _ _ hne1 hne2 hne3, hp2]
        refine relocate_snd_mono _ _ _ ?_
        rw [hp1]
        refine relocate_snd_mono2 _ _ _ _ ?_
        rw [hdb1]
        exact h
      · refine Or.inr ?_
        obtain ⟨hr1, hr2, hr3⟩ := rootKeyFor_ne f hfcb hfext hne3
        have htr : rootVal (normOut kvs0) f = rootVal kvs2 f := by
          refine rootVal_congr _ _ _ ?_ ?_
          · rw [hK, dget_dset_ne _ _ _ _ hr3, hp2,
              relocate_fst_ne _ _ _ hr2, hp1,
              relocate_fst_ne _ _ _ hr1]
          · rw [hK, dget_dset_ne _ _ _ _ hne3, hp2,
              relocate_fst_ne _ _ _ hfext, hp1,
              relocate_fst_ne _ _ _ hfcb]
        unfold rootValNullish
        rw [htr]
        exact h

/-- C3: canonicalization is idempotent — for every card document d,
normalize_card_v3 (normalize_card_v3 d) equals normalize_card_v3 d. -/
theorem C3_normalize_idempotent (d : Json) :
    normalize_card_v3 (normalize_card_v3 d) = normalize_card_v3 d := by
  cases d with
  | obj kvs0 =>
      show normalize_card_v3 (.obj (normOut kvs0)) = .obj (normOut kvs0)
      obtain ⟨db, hd, hs1, hs2, hs3, hspec, hspecv, hcb, hext, hcore⟩ :=
        normOut_props kvs0
      show Json.obj (normOut (normOut kvs0)) = .obj (normOut kvs0)
      rw [normOut_fixed (normOut kvs0) db hd hs1 hs2 hs3 hspec hspecv hcb
        hext hcore]
  | null => rfl
  | bool b => rfl
  | num n => rfl
  | str s => rfl
  | arr xs => rfl

/-! ## Order lemmas for the sort relations -/

theorem charsLe_total (x y : List Char) :
    charsLe x y = true ∨ charsLe y x = true := by
  induction x generalizing y with
  | nil => exact Or.inl rfl
  | cons a as ih =>
      cases y with
      | nil => exact Or.inr rfl
      | cons b bs =>
          by_cases hab : a.toNat < b.toNat
          · refine Or.inl ?_
            simp [charsLe, hab]
          · by_cases hba : b.toNat < a.toNat
            · refine Or.inr ?_
              simp [charsLe, hba]
            · rcases ih bs with h | h
              · refine Or.inl ?_
                simpa [charsLe, hab, hba] using h
              · refine Or.inr ?_
                simpa [charsLe, hab, hba] using h

theorem charsLe_trans (x y z : List Char) (h1 : charsLe x y = true)
    (h2 : charsLe y z = true) : charsLe x z = true := by
  induction x generalizing y z with
  | nil => rfl
  | cons a as ih =>
      cases y with
      | nil => simp [charsLe] at h1
      | cons b bs =>
          cases z with
          | nil => simp [charsLe] at h2
          | cons c cs =>
              simp only [charsLe] at h1 h2 ⊢
              by_cases hab : a.toNat < b.toNat
              · by_cases hbc : b.toNat < c.toNat
                · have : a.toNat < c.toNat := Nat.lt_trans hab hbc
                  simp [this]
                · by_cases hcb : c.toNat < b.toNat
                  · simp [hbc, hcb] at h2
                  · have hbc' : b.toNat = c.toNat := Nat.le_antisymm
                      (Nat.le_of_not_lt hcb) (Nat.le_of_not_lt hbc)
                    have : a.toNat < c.toNat := hbc' ▸ hab
                    simp [this]
              · by_cases hba : b.toNat < a.toNat
                · simp [hab, hba] at h1
                · have hab' : a.toNat = b.toNat := Nat.le_antisymm
                    (Nat.le_of_not_lt hba) (Nat.le_of_not_lt hab)
                  simp only [hab, hba, if_false] at h1
                  by_cases hbc : b.toNat < c.toNat
                  · have : a.toNat < c.toNat := hab' ▸ hbc
                    simp [this]
                  · by_cases hcb : c.toNat < b.toNat
                    · simp [hbc, hcb] at h2
                    · have hac : ¬a.toNat < c.toNat := by
                        rw [hab']
                        exact hbc
                      have hca : ¬c.toNat < a.toNat := by
                        rw [hab']
                        exact hcb
                      simp only [hbc, hcb, if_false] at h2
                      simp [hac, hca, ih bs cs h1 h2]

theorem charsLe_antisym (x y : List Char) (h1 : charsLe x y = true)
    (h2 : charsLe y x = true) : x = y := by
  induction x generalizing y with
  | nil =>
      cases y with
      | nil => rfl
      | cons b bs => simp [charsLe] at h2
  | cons a as ih =>
      cases y with
      | nil => simp [charsLe] at h1
      | cons b bs =>
          simp only [charsLe] at h1 h2
          by_cases hab : a.toNat < b.toNat
          · have : ¬b.toNat < a.toNat := Nat.lt_asymm hab
            simp [hab, this] at h2
          · by_cases hba : b.toNat < a.toNat
            · simp [hab, hba] at h1
            · have hab' : a.toNat = b.toNat := Nat.le_antisymm
                (Nat.le_of_not_lt hba) (Nat.le_of_not_lt hab)
              have hchar : a = b := by
                have hv : a.val.toNat = b.val.toNat := hab'
                exact Char.eq_of_val_eq (UInt32.eq_of_val_eq (Fin.ext hv))
              simp only [hab, hba, if_false] at h1 h2
              rw [hchar, ih bs h1 h2]

instance : IsTotal (String × Json) keyLe :=
  ⟨fun a b => by
    unfold keyLe strLe
    exact charsLe_total a.1.data b.1.data⟩

instance : IsTrans (String × Json) keyLe :=
  ⟨fun a b c h1 h2 => by
    unfold keyLe strLe at h1 h2 ⊢
    exact charsLe_trans _ _ _ h1 h2⟩

theorem strLe_antisym (a b : String) (h1 : strLe a b = true)
    (h2 : strLe b a = true) : a = b := by
  unfold strLe at h1 h2
  cases a with
  | mk da => cases b with
    | mk db => exact congrArg String.mk (charsLe_antisym da db h1 h2)

instance : IsTotal String strLeProp :=
  ⟨fun a b => by
    unfold strLeProp strLe
    exact charsLe_total a.data b.data⟩

instance : IsTrans String strLeProp :=
  ⟨fun a b c h1 h2 => by
    unfold strLeProp strLe at h1 h2 ⊢
    exact charsLe_trans _ _ _ h1 h2⟩

instance : IsAntisymm String strLeProp :=
  ⟨fun a b h1 h2 => strLe_antisym a b h1 h2⟩

/-! ## Association lists up to permutation -/

theorem dget_some_mem (l : List (String × Json)) (k : String) (v : Json)
    (h : dget l k = some v) : (k, v) ∈ l := by
  induction l with
  | nil => simp [dget] at h
  | cons hd t ih =>
      obtain ⟨k0, v0⟩ := hd
      by_cases hk : k0 = k
      · subst hk
        simp [dget] at h
        simp [h]
      · simp [dget, hk] at h
        exact List.mem_cons_of_mem _ (ih h)

theorem dmem_iff_mem_keys (l : List (String × Json)) (k : String) :
    dmem l k = true ↔ k ∈ l.map Prod.fst := by
  induction l with
  | nil => simp [dmem]
  | cons hd t ih =>
      obtain ⟨k0, v0⟩ := hd
      by_cases hk : k0 = k
      · simp [dmem, hk]
      · have hk' : ¬k = k0 := fun h => hk h.symm
        simp [dmem, hk, hk', ih]

theorem dget_none_iff (l : List (String × Json)) (k : String) :
    dget l k = none ↔ k ∉ l.map Prod.fst := by
  induction l with
  | nil => simp [dget]
  | cons hd t ih =>
      obtain ⟨k0, v0⟩ := hd
      by_cases hk : k0 = k
      · simp [dget, hk]
      · have hk' : ¬k = k0 := fun h => hk h.symm
        simp [dget, hk, hk', ih]

theorem mem_dget (l : List (String × Json)) (k : String) (v : Json)
    (hn : (l.map Prod.fst).Nodup) (h : (k, v) ∈ l) : dget l k = some v := by
  induction l with
  | nil => cases h
  | cons hd t ih =>
      obtain ⟨k0, v0⟩ := hd
      simp only [List.map_cons, List.nodup_cons] at hn
      rcases List.mem_cons.mp h with h | h
      · obtain ⟨hk, hv⟩ := Prod.mk.injEq .. ▸ h
        · simp [dget, hk.symm, hv]
      · have hk : k0 ≠ k := by
          intro he
          subst he
          exact hn.1 (List.mem_map.mpr ⟨(k0, v), h, rfl⟩)
        simp [dget, hk, ih hn.2 h]

theorem dget_append (u w : List (String × Json)) (k : String) :
    dget (u ++ w) k =
      match dget u k with
      | some v => some v
      | none => dget w k := by
  induction u with
  | nil => simp [dget]
  | cons hd t ih =>
      obtain ⟨k0, v0⟩ := hd
      by_cases hk : k0 = k
      · simp [dget, hk]
      · simp [dget, hk, ih]

theorem keysNodup_iff (l : List (String × Json)) :
    keysNodup l = true ↔ (l.map Prod.fst).Nodup := by
  induction l with
  | nil => simp [keysNodup]
  | cons hd t ih =>
      obtain ⟨k0, v0⟩ := hd
      have hmem : dmem t k0 = false ↔ k0 ∉ t.map Prod.fst := by
        rw [← dmem_iff_mem_keys t k0]
        simp
      simp only [keysNodup, List.map_cons, List.nodup_cons, Bool.and_eq_true,
        Bool.not_eq_true', hmem, ih]

theorem dget_eq_of_perm (l1 l2 : List (String × Json)) (h : l1.Perm l2)
    (hn : (l1.map Prod.fst).Nodup) (k : String) : dget l1 k = dget l2 k := by
  have hn2 : (l2.map Prod.fst).Nodup := ((h.map Prod.fst).nodup_iff).mp hn
  cases hg : dget l1 k with
  | some v =>
      exact (mem_dget l2 k v hn2 (h.subset (dget_some_mem l1 k v hg))).symm
  | none =>
      have hk : k ∉ l1.map Prod.fst := (dget_none_iff l1 k).mp hg
      have hk2 : k ∉ l2.map Prod.fst := fun hm =>
        hk ((h.map Prod.fst).mem_iff.mpr hm)
      exact ((dget_none_iff l2 k).mpr hk2).symm

theorem perm_of_dget_eq :
    ∀ l1 l2 : List (String × Json), (l1.map Prod.fst).Perm (l2.map Prod.fst) →
      (l1.map Prod.fst).Nodup → (∀ k, dget l1 k = dget l2 k) → l1.Perm l2 := by
  intro l1
  induction l1 with
  | nil =>
      intro l2 hkeys _ _
      have h2 : l2.map Prod.fst = [] := hkeys.nil_eq.symm
      rw [List.map_eq_nil_iff] at h2
      rw [h2]
  | cons hd t1 ih =>
      intro l2 hkeys hn hdg
      obtain ⟨k0, v0⟩ := hd
      simp only [List.map_cons, List.nodup_cons] at hn
      obtain ⟨hn1, hnt⟩ := hn
      have h0 : dget l2 k0 = some v0 := by
        rw [← hdg k0]
        simp [dget]
      obtain ⟨s, t, rfl⟩ := List.append_of_mem (dget_some_mem l2 k0 v0 h0)
      have keyperm : ((s ++ (k0, v0) :: t).map Prod.fst).Perm
          (k0 :: (s ++ t).map Prod.fst) := by
        simp only [List.map_append, List.map_cons]
        exact List.perm_middle
      have hn2 : ((s ++ (k0, v0) :: t).map Prod.fst).Nodup :=
        (hkeys.nodup_iff).mp (by
          simp only [List.map_cons, List.nodup_cons]
          exact ⟨hn1, hnt⟩)
      have hmid : k0 ∉ (s ++ t).map Prod.fst ∧ ((s ++ t).map Prod.fst).Nodup := by
        have := (keyperm.nodup_iff).mp hn2
        rw [List.nodup_cons] at this
        exact this
      have hkeys' : (t1.map Prod.fst).Perm ((s ++ t).map Prod.fst) :=
        (hkeys.trans keyperm).cons_inv
      have hdg' : ∀ k, dget t1 k = dget (s ++ t) k := by
        intro k
        by_cases hk : k = k0
        · subst hk
          rw [(dget_none_iff t1 k).mpr hn1, (dget_none_iff (s ++ t) k).mpr hmid.1]
        · have hk' : ¬k0 = k := fun he => hk he.symm
          have hL : dget t1 k = dget ((k0, v0) :: t1) k := by
            simp [dget, hk']
          rw [hL, hdg k, dget_append, dget_append]
          simp [dget, hk']
      have htail : t1.Perm (s ++ t) := ih (s ++ t) hkeys' hnt hdg'
      exact (htail.cons (k0, v0)).trans List.perm_middle.symm

theorem eq_of_perm_sorted_keysNodup :
    ∀ l1 l2 : List (String × Json), l1.Perm l2 → List.Sorted keyLe l1 →
      List.Sorted keyLe l2 → (l1.map Prod.fst).Nodup → l1 = l2 := by
  intro l1
  induction l1 with
  | nil =>
      intro l2 hperm _ _ _
      exact hperm.nil_eq
  | cons a t1 ih =>
      intro l2 hperm hs1 hs2 hn
      cases l2 with
      | nil => exact absurd hperm.symm.nil_eq (by simp)
      | cons b t2 =>
          by_cases hab : a = b
          · subst hab
            simp only [List.map_cons, List.nodup_cons] at hn
            rw [ih t2 hperm.cons_inv (List.sorted_cons.mp hs1).2
              (List.sorted_cons.mp hs2).2 hn.2]
          · exfalso
            have hain : a ∈ b :: t2 := hperm.subset (List.mem_cons_self _ _)
            have hbin : b ∈ a :: t1 := hperm.symm.subset (List.mem_cons_self _ _)
            have hat2 : a ∈ t2 := by
              rcases List.mem_cons.mp hain with h | h
              · exact absurd h hab
              · exact h
            have hbt1 : b ∈ t1 := by
              rcases List.mem_cons.mp hbin with h | h
              · exact absurd h.symm hab
              · exact h
            have h1 : keyLe a b := (List.sorted_cons.mp hs1).1 b hbt1
            have h2 : keyLe b a := (List.sorted_cons.mp hs2).1 a hat2
            have hkeq : a.1 = b.1 := strLe_antisym a.1 b.1 h1 h2
            simp only [List.map_cons, List.nodup_cons] at hn
            exact hn.1 (hkeq ▸ List.mem_map.mpr ⟨b, hbt1, rfl⟩)

theorem insertionSort_keyLe_eq (l1 l2 : List (String × Json))
    (h : l1.Perm l2) (hn : (l1.map Prod.fst).Nodup) :
    List.insertionSort keyLe l1 = List.insertionSort keyLe l2 := by
  refine eq_of_perm_sorted_keysNodup _ _ ?_ ?_ ?_ ?_
  · exact ((List.perm_insertionSort keyLe l1).trans h).trans
      (List.perm_insertionSort keyLe l2).symm
  · exact List.sorted_insertionSort keyLe l1
  · exact List.sorted_insertionSort keyLe l2
  · exact (((List.perm_insertionSort keyLe l1).map Prod.fst).nodup_iff).mpr hn

/-! ## deterministic_sort is determined by the key-canonical form -/

theorem keyCanonEntries_eq_map (l : List (String × Json)) :
    keyCanonEntries l = l.map (fun p => (p.1, keyCanon p.2)) := by
  induction l with
  | nil => rfl
  | cons hd t ih =>
      obtain ⟨k, v⟩ := hd
      simp [keyCanonEntries, ih]

theorem keyCanonList_eq_map (l : List Json) :
    keyCanonList l = l.map keyCanon := by
  induction l with
  | nil => rfl
  | cons x t ih => simp [keyCanonList, ih]

theorem dsortEntries_eq_map (l : List (String × Json)) :
    dsortEntries l = l.map (fun p => (p.1, deterministic_sort p.2)) := by
  induction l with
  | nil => rfl
  | cons hd t ih =>
      obtain ⟨k, v⟩ := hd
      simp [dsortEntries, ih]

theorem dsortList_eq_map (l : List Json) :
    dsortList l = l.map deterministic_sort := by
  induction l with
  | nil => rfl
  | cons x t ih => simp [dsortList, ih]

theorem dget_map_values (l : List (String × Json)) (k : String)
    (f : Json → Json) :
    dget (l.map (fun p => (p.1, f p.2))) k = (dget l k).map f := by
  induction l with
  | nil => rfl
  | cons hd t ih =>
      obtain ⟨k0, v0⟩ := hd
      by_cases hk : k0 = k
      · simp [dget, hk]
      · simp [dget, hk, ih]

theorem keys_map_values (l : List (String × Json)) (f : Json → Json) :
    (l.map (fun p => (p.1, f p.2))).map Prod.fst = l.map Prod.fst := by
  induction l with
  | nil => rfl
  | cons hd t ih => simp [ih]

theorem nodupRecEntries_mem :
    ∀ (l : List (String × Json)) (k : String) (v : Json),
      nodupRecEntries l = true → (k, v) ∈ l → nodupRec v = true := by
  intro l
  induction l with
  | nil => intro k v _ hm; cases hm
  | cons hd t ih =>
      intro k v hall hm
      obtain ⟨k0, v0⟩ := hd
      simp only [nodupRecEntries, Bool.and_eq_true] at hall
      rcases List.mem_cons.mp hm with h | h
      · obtain ⟨_, hv⟩ := Prod.mk.injEq .. ▸ h
        exact hv ▸ hall.1
      · exact ih k v hall.2 h

theorem nodupRecList_mem :
    ∀ (l : List Json) (x : Json),
      nodupRecList l = true → x ∈ l → nodupRec x = true := by
  intro l
  induction l with
  | nil => intro x _ hm; cases hm
  | cons hd t ih =>
      intro x hall hm
      simp only [nodupRecList, Bool.and_eq_true] at hall
      rcases List.mem_cons.mp hm with h | h
      · exact h ▸ hall.1
      · exact ih x hall.2 h

theorem sizeOf_val_lt_obj (kvs : List (String × Json)) (k : String) (v : Json)
    (h : (k, v) ∈ kvs) : sizeOf v < sizeOf (Json.obj kvs) := by
  have h1 := List.sizeOf_lt_of_mem h
  have h2 : sizeOf v < sizeOf (k, v) := by
    simp only [Prod.mk.sizeOf_spec]
    omega
  simp only [Json.obj.sizeOf_spec]
  omega

theorem sizeOf_elem_lt_arr (xs : List Json) (x : Json) (h : x ∈ xs) :
    sizeOf x < sizeOf (Json.arr xs) := by
  have h1 := List.sizeOf_lt_of_mem h
  simp only [Json.arr.sizeOf_spec]
  omega

theorem dsortList_congr (n : Nat)
    (ih : ∀ a b : Json, sizeOf a ≤ n → nodupRec a = true →
      nodupRec b = true → keyCanon a = keyCanon b →
      deterministic_sort a = deterministic_sort b) :
    ∀ xs ys : List Json, (∀ x ∈ xs, sizeOf x ≤ n) → nodupRecList xs = true →
      nodupRecList ys = true → keyCanonList xs = keyCanonList ys →
      dsortList xs = dsortList ys := by
  intro xs
  induction xs with
  | nil =>
      intro ys _ _ _ hkc
      cases ys with
      | nil => rfl
      | cons y t2 => simp [keyCanonList] at hkc
  | cons x t ihl =>
      intro ys hsz hna hnb hkc
      cases ys with
      | nil => simp [keyCanonList] at hkc
      | cons y t2 =>
          simp only [keyCanonList, List.cons.injEq] at hkc
          simp only [nodupRecList, Bool.and_eq_true] at hna hnb
          simp only [dsortList, List.cons.injEq]
          refine ⟨ih x y (hsz x (List.mem_cons_self _ _)) hna.1 hnb.1 hkc.1, ?_⟩
          exact ihl t2 (fun z hz => hsz z (List.mem_cons_of_mem x hz))
            hna.2 hnb.2 hkc.2

theorem dsort_eq_of_keyCanon_bounded :
    ∀ (n : Nat) (a b : Json), sizeOf a ≤ n → nodupRec a = true →
      nodupRec b = true → keyCanon a = keyCanon b →
      deterministic_sort a = deterministic_sort b := by
  intro n
  induction n with
  | zero =>
      intro a b hsz _ _ _
      exact absurd hsz (by cases a <;> simp)
  | succ n ih =>
      intro a b hsz hna hnb hkc
      cases a with
      | null => cases b <;> simp_all [keyCanon]
      | bool b1 => cases b <;> simp_all [keyCanon, deterministic_sort]
      | num n1 => cases b <;> simp_all [keyCanon, deterministic_sort]
      | str s1 => cases b <;> simp_all [keyCanon, deterministic_sort]
      | arr xs =>
          cases b with
          | arr ys =>
              simp only [keyCanon, Json.arr.injEq] at hkc
              simp only [deterministic_sort, Json.arr.injEq]
              simp only [nodupRec] at hna hnb
              refine dsortList_congr n ih xs ys ?_ hna hnb hkc
              intro x hx
              have h1 := List.sizeOf_lt_of_mem hx
              simp only [Json.arr.sizeOf_spec] at hsz
              omega
          | null => simp_all [keyCanon]
          | bool b2 => simp_all [keyCanon]
          | num n2 => simp_all [keyCanon]
          | str s2 => simp_all [keyCanon]
          | obj k2 => simp_all [keyCanon]
      | obj k1 =>
          cases b with
          | obj k2 =>
              simp only [keyCanon, Json.obj.injEq] at hkc
              simp only [nodupRec, Bool.and_eq_true] at hna hnb
              have hn1 : (k1.map Prod.fst).Nodup := (keysNodup_iff k1).mp hna.1
              have hn2 : (k2.map Prod.fst).Nodup := (keysNodup_iff k2).mp hnb.1
              have hperm : (keyCanonEntries k1).Perm (keyCanonEntries k2) := by
                have p1 := List.perm_insertionSort keyLe (keyCanonEntries k1)
                have p2 := List.perm_insertionSort keyLe (keyCanonEntries k2)
                rw [hkc] at p1
                exact p1.symm.trans p2
              have hkeys : (k1.map Prod.fst).Perm (k2.map Prod.fst) := by
                have := hperm.map Prod.fst
                rwa [keyCanonEntries_eq_map, keyCanonEntries_eq_map,
                  keys_map_values, keys_map_values] at this
              have hdget : ∀ k, (dget k1 k).map keyCanon =
                  (dget k2 k).map keyCanon := by
                intro k
                have he := dget_eq_of_perm _ _ hperm (by
                  rw [keyCanonEntries_eq_map, keys_map_values]
                  exact hn1) k
                rwa [keyCanonEntries_eq_map, keyCanonEntries_eq_map,
                  dget_map_values, dget_map_values] at he
              have hpt : ∀ k, (dget k1 k).map deterministic_sort =
                  (dget k2 k).map deterministic_sort := by
                intro k
                cases h1 : dget k1 k with
                | none =>
                    cases h2 : dget k2 k with
                    | none => rfl
                    | some v2 =>
                        have := hdget k
                        rw [h1, h2] at this
                        simp at this
                | some v1 =>
                    cases h2 : dget k2 k with
                    | none =>
                        have := hdget k
                        rw [h1, h2] at this
                        simp at this
                    | some v2 =>
                        have hkcv : keyCanon v1 = keyCanon v2 := by
                          have := hdget k
                          rw [h1, h2] at this
                          simpa using this
                        have hszv : sizeOf v1 ≤ n := by
                          have hlt := sizeOf_val_lt_obj k1 k v1 (dget_some_mem _ _ _ h1)
                          simp only [Json.obj.sizeOf_spec] at hsz hlt
                          omega
                        have hnv1 : nodupRec v1 = true :=
                          nodupRecEntries_mem k1 k v1 hna.2 (dget_some_mem _ _ _ h1)
                        have hnv2 : nodupRec v2 = true :=
                          nodupRecEntries_mem k2 k v2 hnb.2 (dget_some_mem _ _ _ h2)
                        simp [ih v1 v2 hszv hnv1 hnv2 hkcv]
              have hdse : ∀ k, dget (dsortEntries k1) k = dget (dsortEntries k2) k := by
                intro k
                rw [dsortEntries_eq_map, dsortEntries_eq_map, dget_map_values,
                  dget_map_values, hpt k]
              simp only [deterministic_sort, Json.obj.injEq]
              unfold reorderEntries
              have hA : all_priority.filterMap
                    (fun k => (dget (dsortEntries k1) k).map (fun v => (k, v))) =
                  all_priority.filterMap
                    (fun k => (dget (dsortEntries k2) k).map (fun v => (k, v))) := by
                have hfun : (fun k => (dget (dsortEntries k1) k).map (fun v => (k, v))) =
                    (fun k => (dget (dsortEntries k2) k).map (fun v => (k, v))) := by
                  funext k
                  rw [hdse k]
                rw [hfun]
              have hpermdse : (dsortEntries k1).Perm (dsortEntries k2) := by
                refine perm_of_dget_eq _ _ ?_ ?_ hdse
                · rw [dsortEntries_eq_map, dsortEntries_eq_map, keys_map_values,
                    keys_map_values]
                  exact hkeys
                · rw [dsortEntries_eq_map, keys_map_values]
                  exact hn1
              have hB : List.insertionSort keyLe
                    ((dsortEntries k1).filter (fun p => p.1 ∉ all_priority)) =
                  List.insertionSort keyLe
                    ((dsortEntries k2).filter (fun p => p.1 ∉ all_priority)) := by
                refine insertionSort_keyLe_eq _ _ (hpermdse.filter _) ?_
                have hsub : ((dsortEntries k1).filter
                    (fun p => p.1 ∉ all_priority)).Sublist (dsortEntries k1) :=
                  List.filter_sublist _
                have := (hsub.map Prod.fst).nodup
                refine this ?_
                rw [dsortEntries_eq_map, keys_map_values]
                exact hn1
              rw [hA, hB]
          | null => simp_all [keyCanon]
          | bool b2 => simp_all [keyCanon]
          | num n2 => simp_all [keyCanon]
          | str s2 => simp_all [keyCanon]
          | arr ys => simp_all [keyCanon]

/-- deterministic_sort factors through the key-canonical form on documents
with duplicate-free keys: two such documents differing only in key order
sort identically. -/
theorem dsort_eq_of_keyCanon (a b : Json) (hna : nodupRec a = true)
    (hnb : nodupRec b = true) (hkc : keyCanon a = keyCanon b) :
    deterministic_sort a = deterministic_sort b :=
  dsort_eq_of_keyCanon_bounded (sizeOf a) a b (Nat.le_refl _) hna hnb hkc

/-! ## C1 : content-fingerprint layout invariance -/

set_option maxRecDepth 4000 in
/-- C1 counterexample: the claim "a legacy-schema document and its
versioned-schema equivalent (same logical field values) fingerprint
identically" is false on the code.  The legacy document
`{"name": "Foo"}` and its versioned equivalent
`{"spec": "chara_card_v3", "spec_version": "3.0", "data": {"name": "Foo"}}`
carry the same logical field values (data.name = "Foo" after
canonicalization), yet _calculate_data_hash feeds different serializations
to MD5, because normalize_card_v3 keeps the root-level legacy duplicate of
name for the legacy input and never adds one for the versioned input. -/
theorem C1_layout_counterexample :
    calculate_data_hash (.obj [("name", .str "Foo")]) ≠
      calculate_data_hash (.obj [("spec", .str "chara_card_v3"),
        ("spec_version", .str "3.0"),
        ("data", .obj [("name", .str "Foo")])]) := by
  decide

/-- C1 (amended): the fingerprint of _calculate_data_hash is invariant
under key reordering — whenever two truthy documents pass the membership
test and their hash-normalized forms (the conditionally applied
normalize_card_v3) are key-permutations of each other (same entries at
every key at every level, keys duplicate-free), the fingerprints agree.
The original claim's legacy-versus-versioned clause does not hold (see the
counterexample): layout invariance is limited to key order. -/
theorem C1_fingerprint_keyorder_invariant (d1 d2 p1 p2 : Json)
    (h1 : hashPrep d1 = .ok p1) (h2 : hashPrep d2 = .ok p2)
    (ht1 : truthy d1 = true) (ht2 : truthy d2 = true)
    (hn1 : nodupRec p1 = true) (hn2 : nodupRec p2 = true)
    (hkc : keyCanon p1 = keyCanon p2) :
    calculate_data_hash d1 = calculate_data_hash d2 := by
  simp only [calculate_data_hash, ht1, ht2, h1, h2]
  rw [dsort_eq_of_keyCanon p1 p2 hn1 hn2 hkc]

set_option maxRecDepth 4000 in
/-- C1 witness: the invariance theorem applied to two concrete documents
that differ only in key order. -/
theorem C1_fingerprint_keyorder_invariant_witness :
    hashPrep (.obj [("name", .str "Foo"), ("tags", .arr [.str "a"])]) =
        .ok (normalize_card_v3
          (.obj [("name", .str "Foo"), ("tags", .arr [.str "a"])])) ∧
    hashPrep (.obj [("tags", .arr [.str "a"]), ("name", .str "Foo")]) =
        .ok (normalize_card_v3
          (.obj [("tags", .arr [.str "a"]), ("name", .str "Foo")])) ∧
    keyCanon (normalize_card_v3
        (.obj [("name", .str "Foo"), ("tags", .arr [.str "a"])])) =
      keyCanon (normalize_card_v3
        (.obj [("tags", .arr [.str "a"]), ("name", .str "Foo")])) ∧
    calculate_data_hash (.obj [("name", .str "Foo"), ("tags", .arr [.str "a"])]) =
      calculate_data_hash (.obj [("tags", .arr [.str "a"]), ("name", .str "Foo")]) :=
  ⟨rfl, rfl, rfl,
    C1_fingerprint_keyorder_invariant _ _ _ _ rfl rfl rfl rfl rfl rfl rfl⟩

/-! ## C4 : file signature formula -/

/-- C4 counterexample: the claim says the signature of a file of at most
128 KiB is the MD5 over the bare byte stream, but get_file_hash_and_size
always hashes the decimal size text first.  For the one-byte file "a" the
code hashes "1a" (bytes 49, 97), not "a" (byte 97). -/
theorem C4_file_signature_counterexample :
    get_file_hash_input [97] ≠ claimed_file_hash_input [97] := by
  decide

/-- C4 (amended): the file signature is the MD5 over (file size as decimal
text) + (first 64 KiB) + (last 64 KiB) when the file size exceeds 128 KiB,
and the MD5 over (file size as decimal text) + (the full byte stream)
otherwise — the size prefix is always included, which is the only
correction to the claim. -/
theorem C4_file_signature_formula (content : List Nat) :
    get_file_hash_input content =
      sizeTextBytes content.length ++
        (if 128 * 1024 < content.length then
          content.take (64 * 1024) ++
            content.drop (content.length - 64 * 1024)
        else content) := by
  unfold get_file_hash_input SAMPLE
  dsimp only
  by_cases h : content.length ≤ 64 * 1024 * 2
  · rw [if_pos h, if_neg (by omega)]
  · rw [if_neg h, if_pos (by omega)]

/-! ## C5 : eq operator on sequence values -/

/-- The eq-on-sequence semantics exactly as the claim words it, stated for
comparison with the source: the target is treated as a comma-splittable
list, and the sorted lower-cased multiset of the value's string coercions
is compared against the sorted lower-cased target list.  This follows the
claim's wording, not the source. -/
def claimed_eq_list_check (xs : List Json) (target : String) : Bool :=
  pySorted (xs.map (fun v => pyLower (pyStr v))) ==
    pySorted ((pySplitComma target).map pyLower)

/-- Sorted-list equality is multiset equality. -/
theorem pySorted_beq_iff_perm (l1 l2 : List String) :
    (pySorted l1 == pySorted l2) = true ↔ l1.Perm l2 := by
  rw [beq_iff_eq]
  unfold pySorted
  constructor
  · intro h
    have p1 := List.perm_insertionSort strLeProp l1
    have p2 := List.perm_insertionSort strLeProp l2
    rw [h] at p1
    exact p1.symm.trans p2
  · intro h
    refine @List.eq_of_perm_of_sorted String strLeProp _ _ _ ?_ ?_ ?_
    · exact ((List.perm_insertionSort strLeProp l1).trans h).trans
        (List.perm_insertionSort strLeProp l2).symm
    · exact List.sorted_insertionSort strLeProp l1
    · exact List.sorted_insertionSort strLeProp l2

/-- C5 counterexample: with case_sensitive true and a comma-free target,
_check_condition does not lower-case the target while it still lower-cases
the value elements, so for value ["A"], target "A" the code returns False
where the claim's sorted-lower-cased comparison yields True. -/
theorem C5_eq_list_counterexample :
    checkCondition (fun _ _ _ => none) (.arr [.str "A"]) (.str "eq")
        (.str "A") true = false ∧
      claimed_eq_list_check [.str "A"] "A" = true := by
  constructor
  · decide
  · decide

/-- C5 (amended): for a sequence value and string target, the eq operator
is order-insensitive multiset equality of the lower-cased value coercions
against the target list, where the target is comma-split with each piece
stripped and lower-cased whenever it contains a comma, and otherwise is the
singleton target lower-cased only when case_sensitive is false.  In
particular value ["a","b"] with target "b,a", case_sensitive false matches. -/
theorem C5_eq_list_semantics (rx : RegexSearch) (xs : List Json) (t : String)
    (cs : Bool) :
    checkCondition rx (.arr xs) (.str "eq") (.str t) cs = true ↔
      (xs.map (fun v => pyLower (pyStr v))).Perm
        (if strHasChar t ',' = true then
          (pySplitComma t).map (fun p => pyLower (pyStrip p))
        else [if cs then t else pyLower t]) := by
  have hstep : checkCondition rx (.arr xs) (.str "eq") (.str t) cs =
      eqListCheck xs (.str t) (if cs then t else pyLower t) := by
    cases cs <;> rfl
  rw [hstep]
  unfold eqListCheck
  by_cases hc : strHasChar t ',' = true
  · rw [if_pos hc]
    show (match pyInComma (.str t) with
      | .error _ => false
      | .ok true =>
          match Json.str t with
          | .str u =>
              pySorted (xs.map (fun v => pyLower (pyStr v))) ==
                pySorted ((pySplitComma u).map (fun p => pyLower (pyStrip p)))
          | _ => false
      | .ok false =>
          pySorted (xs.map (fun v => pyLower (pyStr v))) ==
            pySorted [if cs then t else pyLower t]) = true ↔ _
    rw [show pyInComma (.str t) = .ok true by rw [← hc]; rfl]
    exact pySorted_beq_iff_perm _ _
  · rw [if_neg hc]
    show (match pyInComma (.str t) with
      | .error _ => false
      | .ok true =>
          match Json.str t with
          | .str u =>
              pySorted (xs.map (fun v => pyLower (pyStr v))) ==
                pySorted ((pySplitComma u).map (fun p => pyLower (pyStrip p)))
          | _ => false
      | .ok false =>
          pySorted (xs.map (fun v => pyLower (pyStr v))) ==
            pySorted [if cs then t else pyLower t]) = true ↔ _
    have hcf : strHasChar t ',' = false := by
      cases hcv : strHasChar t ',' with
      | true => exact absurd hcv hc
      | false => rfl
    rw [show pyInComma (.str t) = .ok false from by rw [← hcf]; rfl]
    exact pySorted_beq_iff_perm _ _

/-! ## Rule-loop lemmas -/

theorem except_bind_ok {α β : Type} (a : α) (f : α → Except Unit β) :
    (Except.ok a >>= f) = f a := rfl

theorem rulesFold_cons_ok (rx : RegexSearch) (card : List (String × Json))
    (rule : Json) (rest : List Json) (acc a : List Json) (st : Bool)
    (h : ruleStep rx card rule = .ok (a, st)) :
    rulesFold rx card (rule :: rest) acc =
      if st then .ok (acc ++ a) else rulesFold rx card rest (acc ++ a) := by
  simp only [rulesFold]
  rw [h]
  rfl

/-! ## C6 : stop_on_match terminates the ruleset -/

/-- C6: once a rule r with truthy stop_on_match matches (ruleStep returns
its actions with the stop flag), no subsequent rule is evaluated, and the
plan is exactly the accumulated actions of the matched earlier rules, in
declared order, followed by r's actions — the trailing rules l2 do not
appear in the result at all (they may even be malformed). -/
theorem C6_stop_on_match (rx : RegexSearch) (card : List (String × Json))
    (l1 l2 : List Json) (r : Json) (acts : List Json)
    (actsOf : Json → List Json)
    (hstop : ruleStep rx card r = .ok (acts, true))
    (hpre : ∀ r' ∈ l1, ruleStep rx card r' = .ok (actsOf r', false)) :
    ∀ acc, rulesFold rx card (l1 ++ r :: l2) acc =
      .ok (acc ++ (l1.map actsOf).flatten ++ acts) := by
  induction l1 with
  | nil =>
      intro acc
      rw [List.nil_append, rulesFold_cons_ok rx card r l2 acc acts true hstop]
      simp
  | cons h1 t ih =>
      intro acc
      have hh := hpre h1 (List.mem_cons_self _ _)
      rw [List.cons_append,
        rulesFold_cons_ok rx card h1 (t ++ r :: l2) acc (actsOf h1) false hh]
      rw [if_neg (by simp)]
      rw [ih (fun r' hr => hpre r' (List.mem_cons_of_mem _ hr)) (acc ++ actsOf h1)]
      simp

/-- C6 witness: ruleset [A (matches, stop_on_match), B] on the
specification's scenario card — only A's actions appear, with a preceding
matching non-stop rule contributing its actions first and a malformed
trailing rule never reached. -/
theorem C6_stop_on_match_witness :
    ruleStep (fun _ _ _ => none) [("tags", .arr [.str "a", .str "b"])]
        (.obj [("groups", .arr [.obj [("logic", .str "AND"),
            ("conditions", .arr [.obj [("field", .str "tags"),
              ("operator", .str "eq"), ("value", .str "b,a"),
              ("case_sensitive", .bool false)]])]]),
          ("actions", .arr [.str "actA"]), ("stop_on_match", .bool true)]) =
      .ok ([.str "actA"], true) ∧
    rulesFold (fun _ _ _ => none) [("tags", .arr [.str "a", .str "b"])]
        ([.obj [("conditions", .arr [.obj [("field", .str "tags"),
            ("operator", .str "eq"), ("value", .str "b,a"),
            ("case_sensitive", .bool false)]]),
          ("actions", .arr [.str "act0"])]] ++
          (.obj [("groups", .arr [.obj [("logic", .str "AND"),
              ("conditions", .arr [.obj [("field", .str "tags"),
                ("operator", .str "eq"), ("value", .str "b,a"),
                ("case_sensitive", .bool false)]])]]),
            ("actions", .arr [.str "actA"]),
            ("stop_on_match", .bool true)]) :: [Json.null]) [] =
      .ok ([] ++ ([[Json.str "act0"]]).flatten ++ [.str "actA"]) := by
  refine ⟨by rfl, ?_⟩
  refine C6_stop_on_match (fun _ _ _ => none) _ _ _ _ _
    (fun _ => [Json.str "act0"]) (by rfl) ?_ []
  intro r' hr
  rw [List.mem_singleton] at hr
  subst hr
  rfl

/-! ## C7 : empty groups skip the rule, empty conditions fail the group -/

/-- C7: a rule whose normalized group list is empty — groups falsy and no
legacy conditions to wrap — is skipped and never matches regardless of its
other fields (the ruleset evaluates as if the rule were absent); and a
group whose conditions entry is missing or the empty list evaluates to
false, never vacuously true. -/
theorem C7_empty_groups_and_conditions :
    (∀ (rx : RegexSearch) (card rkvs : List (String × Json))
        (rest : List Json) (acc : List Json),
      truthy ((dget rkvs "groups").getD (.arr [])) = false →
      truthy ((dget rkvs "conditions").getD .null) = false →
      rulesFold rx card (.obj rkvs :: rest) acc = rulesFold rx card rest acc) ∧
    (∀ (rx : RegexSearch) (card gkvs : List (String × Json)) (s : String),
      (dget gkvs "conditions" = none ∨ dget gkvs "conditions" = some (.arr [])) →
      (dget gkvs "logic").getD (.str "AND") = .str s →
      groupEval rx card (.obj gkvs) = .ok false) := by
  constructor
  · intro rx card rkvs rest acc hg hcnd
    have hrg : ruleGroups rkvs = (dget rkvs "groups").getD (.arr []) := by
      unfold ruleGroups
      rw [if_neg]
      intro hand
      rw [hcnd] at hand
      exact absurd hand.2 (by simp)
    have hstep : ruleStep rx card (.obj rkvs) = .ok ([], false) := by
      simp only [ruleStep]
      by_cases he : truthy ((dget rkvs "enabled").getD (.bool true)) = false
      · rw [if_pos he]
      · rw [if_neg he, hrg, if_pos hg]
    rw [rulesFold_cons_ok rx card _ rest acc [] false hstep]
    simp
  · intro rx card gkvs s hconds hlogic
    simp only [groupEval]
    rw [hlogic]
    have hfalse : truthy ((dget gkvs "conditions").getD (.arr [])) = false := by
      rcases hconds with h | h
      · rw [h]
        rfl
      · rw [h]
        rfl
    dsimp only
    rw [except_bind_ok, if_pos hfalse]

/-- C7 witness: a rule with neither groups nor conditions is skipped (the
one-rule ruleset evaluates to the empty plan even though the rule carries
actions), and a group with an empty conditions list evaluates to false. -/
theorem C7_empty_groups_and_conditions_witness :
    rulesFold (fun _ _ _ => none) []
        [.obj [("actions", .arr [.str "x"])]] [] = .ok [] ∧
      groupEval (fun _ _ _ => none) []
        (.obj [("logic", .str "AND"), ("conditions", .arr [])]) = .ok false := by
  constructor
  · rw [C7_empty_groups_and_conditions.1 (fun _ _ _ => none) []
      [("actions", .arr [.str "x"])] [] [] (by rfl) (by rfl)]
    rfl
  · exact C7_empty_groups_and_conditions.2 (fun _ _ _ => none) []
      [("logic", .str "AND"), ("conditions", .arr [])] "AND" (Or.inr rfl) rfl

/-! ## C9 : the enabled default and falsy-skip semantics -/

/-- C9 counterexample: the claim "only a rule whose enabled field is
explicitly false is skipped" is false on the code — a rule whose enabled
value is the number 0 (not the boolean false) is skipped too, while the
same rule with no enabled key matches and contributes its actions. -/
theorem C9_enabled_counterexample :
    ruleStep (fun _ _ _ => none) [("tags", .arr [.str "a", .str "b"])]
        (.obj [("enabled", .num 0),
          ("conditions", .arr [.obj [("field", .str "tags"),
            ("operator", .str "eq"), ("value", .str "b,a"),
            ("case_sensitive", .bool false)]]),
          ("actions", .arr [.str "x"])]) = .ok ([], false) ∧
      Json.num 0 ≠ Json.bool false ∧
      ruleStep (fun _ _ _ => none) [("tags", .arr [.str "a", .str "b"])]
        (.obj [("conditions", .arr [.obj [("field", .str "tags"),
            ("operator", .str "eq"), ("value", .str "b,a"),
            ("case_sensitive", .bool false)]]),
          ("actions", .arr [.str "x"])]) = .ok ([.str "x"], false) := by
  refine ⟨by rfl, ?_, by rfl⟩
  intro h
  cases h

/-- C9 (amended): a rule whose mapping lacks the enabled key is treated as
enabled — its evaluation is identical to that of the same rule with
enabled set to true; and a rule is skipped (contributing nothing, its
groups never inspected) exactly when its enabled value is falsy, which
covers false but also 0, null, the empty string and empty containers. -/
theorem C9_enabled_semantics :
    (∀ (rx : RegexSearch) (card rkvs : List (String × Json)) (v : Json),
      dget rkvs "enabled" = some v → truthy v = false →
      ruleStep rx card (.obj rkvs) = .ok ([], false)) ∧
    (∀ (rx : RegexSearch) (card rkvs : List (String × Json)),
      dget rkvs "enabled" = none →
      ruleStep rx card (.obj rkvs) =
        ruleStep rx card (.obj (dset rkvs "enabled" (.bool true)))) := by
  constructor
  · intro rx card rkvs v h ht
    simp only [ruleStep]
    rw [h]
    simp only [Option.getD_some]
    rw [if_pos ht]
  · intro rx card rkvs h
    simp only [ruleStep]
    rw [h, dget_dset_self]
    simp only [Option.getD_some, Option.getD_none]
    rw [show ruleGroups (dset rkvs "enabled" (.bool true)) = ruleGroups rkvs from by
      unfold ruleGroups
      rw [dget_dset_ne rkvs "enabled" "groups" (.bool true) (by decide),
        dget_dset_ne rkvs "enabled" "conditions" (.bool true) (by decide)]]
    rw [dget_dset_ne rkvs "enabled" "logic" (.bool true) (by decide),
      dget_dset_ne rkvs "enabled" "actions" (.bool true) (by decide),
      dget_dset_ne rkvs "enabled" "stop_on_match" (.bool true) (by decide)]

/-- C9 witness: the amended semantics applied concretely — a rule with
enabled = null is skipped, and a rule lacking enabled evaluates like the
same rule with enabled = true. -/
theorem C9_enabled_semantics_witness :
    ruleStep (fun _ _ _ => none) [] (.obj [("enabled", Json.null)]) =
        .ok ([], false) ∧
      ruleStep (fun _ _ _ => none) [] (.obj [("actions", .arr [])]) =
        ruleStep (fun _ _ _ => none) []
          (.obj (dset [("actions", .arr [])] "enabled" (.bool true))) := by
  constructor
  · exact C9_enabled_semantics.1 (fun _ _ _ => none) [] [("enabled", Json.null)]
      Json.null rfl rfl
  · exact C9_enabled_semantics.2 (fun _ _ _ => none) [] [("actions", .arr [])] rfl

/-! ## C8 : apply_plan ordering and move-failure behaviour -/

/-- C8: apply_plan's collaborator calls are the attribute mutation first
and the move last, both issued against the original (pre-move) identifier;
when the move fails the returned final identifier is the pre-move
identifier and moved_to stays empty; and the attribute-mutation outcome
(tags_added, tags_removed, fav_changed) does not depend on the move
collaborator at all — a failed move rolls nothing back. -/
theorem C8_apply_plan_order
    (modifyFn : String → List Json → List Json → Option Json → Bool)
    (moveFn moveFn' : String → Json → Bool × String × String)
    (card_id : String) (plan : PlanInput) :
    ((apply_plan modifyFn moveFn card_id plan).2 =
      (if !plan.add_tags.isEmpty || !plan.remove_tags.isEmpty ||
          plan.favorite.isSome then
        [ExecEvent.modifyCall card_id plan.add_tags plan.remove_tags
          plan.favorite]
      else []) ++
      (match plan.move with
       | some t => [ExecEvent.moveCall card_id t]
       | none => [])) ∧
    (∀ t nid msg, plan.move = some t → moveFn card_id t = (false, nid, msg) →
      (apply_plan modifyFn moveFn card_id plan).1.final_id = card_id ∧
      (apply_plan modifyFn moveFn card_id plan).1.moved_to = none) ∧
    ((apply_plan modifyFn moveFn card_id plan).1.tags_added =
        (apply_plan modifyFn moveFn' card_id plan).1.tags_added ∧
      (apply_plan modifyFn moveFn card_id plan).1.tags_removed =
        (apply_plan modifyFn moveFn' card_id plan).1.tags_removed ∧
      (apply_plan modifyFn moveFn card_id plan).1.fav_changed =
        (apply_plan modifyFn moveFn' card_id plan).1.fav_changed) := by
  refine ⟨?_, ?_, ?_⟩
  · unfold apply_plan
    cases hm : plan.move <;>
      by_cases hneed : (!plan.add_tags.isEmpty || !plan.remove_tags.isEmpty ||
          plan.favorite.isSome) = true <;>
      simp [hneed]
  · intro t nid msg hmv hfail
    unfold apply_plan
    rw [hmv]
    simp only [hfail]
    constructor
    · rfl
    · rfl
  · unfold apply_plan
    cases hm : plan.move <;> simp

/-- C8 witness: a plan with a tag addition and a move whose collaborator
fails — the trace is modify-then-move at the original identifier, the
final identifier stays the original, and the attribute outcome matches the
one under a collaborator whose move would succeed. -/
theorem C8_apply_plan_order_witness :
    (⟨[Json.str "t"], [], none, some (Json.str "Target")⟩ :
        PlanInput).move = some (Json.str "Target") ∧
      (fun (_ : String) (_ : Json) => (false, "nid", "err")) "card1"
          (Json.str "Target") = (false, "nid", "err") ∧
      (apply_plan (fun _ _ _ _ => true)
          (fun _ _ => (false, "nid", "err")) "card1"
          ⟨[Json.str "t"], [], none, some (Json.str "Target")⟩).1.final_id =
        "card1" ∧
      (apply_plan (fun _ _ _ _ => true)
          (fun _ _ => (false, "nid", "err")) "card1"
          ⟨[Json.str "t"], [], none, some (Json.str "Target")⟩).1.moved_to =
        none := by
  refine ⟨rfl, rfl, ?_⟩
  exact (C8_apply_plan_order (fun _ _ _ _ => true)
    (fun _ _ => (false, "nid", "err")) (fun _ _ => (false, "nid", "err"))
    "card1" ⟨[Json.str "t"], [], none, some (Json.str "Target")⟩).2.1
    (Json.str "Target") "nid" "err" rfl rfl

/-! ## C10 : saving a ruleset under its own name keeps its id -/

/-- C10: when the sanitized new display name equals the old ruleset id
case-insensitively, save_ruleset returns the old id unchanged — original
casing preserved — and performs no numeric-suffix collision resolution,
whatever files exist; re-saving a ruleset under its own name never changes
its id. -/
theorem C10_save_same_name (existing : List String) (oid metaName : String)
    (hne : oid ≠ "")
    (hcase : pyLower (sanitize_filename metaName) = pyLower oid) :
    save_ruleset_id existing (some oid) metaName = oid := by
  unfold save_ruleset_id
  dsimp only
  rw [if_pos ⟨hne, hcase.symm⟩]

/-- C10 witness: re-saving the ruleset "My Rules" under the display name
"my rules" returns "My Rules" even though that id's file already exists —
no numeric suffix gets appended and the casing is kept. -/
theorem C10_save_same_name_witness :
    ("My Rules" : String) ≠ "" ∧
      pyLower (sanitize_filename "my rules") = pyLower "My Rules" ∧
      save_ruleset_id ["My Rules"] (some "My Rules") "my rules" = "My Rules" :=
  ⟨by decide, by decide,
    C10_save_same_name ["My Rules"] "My Rules" "my rules" (by decide) (by decide)⟩

/-! ## C2 : evaluate is total and frame-preserving on well-formed inputs -/

theorem pyGetAttr_obj (kvs : List (String × Json)) (k : String) (d : Json) :
    pyGetAttr (.obj kvs) k d = .ok ((dget kvs k).getD d) := rfl

theorem wfCard_cb (card : List (String × Json)) (hw : wfCardKvs card = true) :
    ∃ b, (dget card "character_book").getD (.obj []) = Json.obj b := by
  unfold wfCardKvs at hw
  rw [Bool.and_eq_true] at hw
  cases hg : dget card "character_book" with
  | none => exact ⟨[], rfl⟩
  | some v =>
      rw [hg] at hw
      cases v with
      | obj bb => exact ⟨bb, rfl⟩
      | null => exact absurd hw.1 (by decide)
      | bool b2 => exact absurd hw.1 (by cases b2 <;> decide)
      | num n2 => exact absurd hw.1 (by simp)
      | str s2 => exact absurd hw.1 (by simp)
      | arr xs => exact absurd hw.1 (by simp)

theorem wfCard_ext (card : List (String × Json)) (hw : wfCardKvs card = true) :
    ∃ e, (dget card "extensions").getD (.obj []) = Json.obj e := by
  unfold wfCardKvs at hw
  rw [Bool.and_eq_true] at hw
  cases hg : dget card "extensions" with
  | none => exact ⟨[], rfl⟩
  | some v =>
      rw [hg] at hw
      cases v with
      | obj ee => exact ⟨ee, rfl⟩
      | null => exact absurd hw.2 (by decide)
      | bool b2 => exact absurd hw.2 (by cases b2 <;> decide)
      | num n2 => exact absurd hw.2 (by simp)
      | str s2 => exact absurd hw.2 (by simp)
      | arr xs => exact absurd hw.2 (by simp)

theorem getFieldValueStr_ok (card : List (String × Json)) (fk : String)
    (st : Json) (hw : wfCardKvs card = true) :
    ∃ v, getFieldValueStr card fk st = .ok v := by
  obtain ⟨e, he⟩ := wfCard_ext card hw
  obtain ⟨b, hb⟩ := wfCard_cb card hw
  unfold getFieldValueStr
  by_cases h1 : fk = "extensions.regex_scripts" ∨ fk = "regex_scripts"
  · rw [if_pos h1]
    simp only [he, pyGetAttr_obj, except_bind_ok]
    repeat' split
    all_goals exact ⟨_, rfl⟩
  · rw [if_neg h1]
    by_cases h2 : fk = "character_book"
    · rw [if_pos h2]
      simp only [hb, pyGetAttr_obj, except_bind_ok]
      repeat' split
      all_goals exact ⟨_, rfl⟩
    · rw [if_neg h2]
      by_cases h3 : fk = "extensions.tavern_helper"
      · rw [if_pos h3]
        simp only [he, pyGetAttr_obj, except_bind_ok]
        repeat' split
        all_goals exact ⟨_, rfl⟩
      · rw [if_neg h3]
        by_cases h4 : strHasChar fk '.' = true
        · rw [if_pos h4]
          exact ⟨_, rfl⟩
        · rw [if_neg h4]
          exact ⟨_, rfl⟩

theorem getFieldValue_str_ok (card : List (String × Json)) (fk : String)
    (st : Json) (hw : wfCardKvs card = true) :
    ∃ v, getFieldValue card (.str fk) st = .ok v := by
  unfold getFieldValue
  by_cases ht : truthy (.str fk) = false
  · rw [if_pos ht]
    exact ⟨.null, rfl⟩
  · rw [if_neg ht]
    exact getFieldValueStr_ok card fk st hw

theorem condEval_ok (rx : RegexSearch) (card : List (String × Json))
    (cond : Json) (hwc : wfCond cond = true) (hw : wfCardKvs card = true) :
    ∃ b, condEval rx card cond = .ok b := by
  cases cond with
  | obj ckvs =>
      unfold wfCond at hwc
      rw [Bool.and_eq_true] at hwc
      obtain ⟨hf0, hop0⟩ := hwc
      cases hf : dget ckvs "field" with
      | none => rw [hf] at hf0; simp at hf0
      | some fv =>
          rw [hf] at hf0
          cases fv with
          | str s =>
              cases hop : dget ckvs "operator" with
              | none => rw [hop] at hop0; simp at hop0
              | some opv =>
                  obtain ⟨v, hv⟩ :=
                    getFieldValue_str_ok card (fieldMapGet s) (.str s) hw
                  refine ⟨checkCondition rx v opv ((dget ckvs "value").getD .null)
                    (truthy ((dget ckvs "case_sensitive").getD (.bool false))), ?_⟩
                  simp only [condEval, hf, hop, hv, except_bind_ok]
          | null => simp at hf0
          | bool b2 => simp at hf0
          | num n2 => simp at hf0
          | arr xs => simp at hf0
          | obj o2 => simp at hf0
  | null => simp [wfCond] at hwc
  | bool b2 => simp [wfCond] at hwc
  | num n2 => simp [wfCond] at hwc
  | str s2 => simp [wfCond] at hwc
  | arr xs => simp [wfCond] at hwc

theorem mapM_condEval_ok (rx : RegexSearch) (card : List (String × Json))
    (hw : wfCardKvs card = true) :
    ∀ cs : List Json, (∀ c ∈ cs, wfCond c = true) →
      ∃ rs, cs.mapM (condEval rx card) = .ok rs := by
  intro cs
  induction cs with
  | nil => exact fun _ => ⟨[], rfl⟩
  | cons c t ih =>
      intro hall
      obtain ⟨b, hb⟩ := condEval_ok rx card c
        (hall c (List.mem_cons_self _ _)) hw
      obtain ⟨rs, hrs⟩ := ih (fun c' hc' => hall c' (List.mem_cons_of_mem _ hc'))
      refine ⟨b :: rs, ?_⟩
      rw [List.mapM_cons, hb, hrs]
      rfl

theorem groupEval_ok (rx : RegexSearch) (card : List (String × Json))
    (g : Json) (hwg : wfGroup g = true) (hw : wfCardKvs card = true) :
    ∃ r, groupEval rx card g = .ok r := by
  cases g with
  | obj gkvs =>
      unfold wfGroup at hwg
      rw [Bool.and_eq_true] at hwg
      obtain ⟨hl0, hc0⟩ := hwg
      cases hl : (dget gkvs "logic").getD (.str "AND") with
      | str s =>
          simp only [groupEval, hl, except_bind_ok]
          by_cases ht : truthy ((dget gkvs "conditions").getD (.arr [])) = false
          · rw [if_pos ht]
            exact ⟨false, rfl⟩
          · rw [if_neg ht]
            rw [Bool.or_eq_true] at hc0
            rcases hc0 with hc0 | hc0
            · exact absurd (of_decide_eq_true hc0) ht
            · cases hcv : (dget gkvs "conditions").getD (.arr []) with
              | arr cs =>
                  rw [hcv] at hc0
                  obtain ⟨rs, hrs⟩ := mapM_condEval_ok rx card hw cs
                    (fun c hc => by
                      have := List.all_eq_true.mp hc0 c hc
                      exact this)
                  rw [show pyIter (Json.arr cs) = .ok cs from rfl, except_bind_ok,
                    hrs, except_bind_ok]
                  exact ⟨_, rfl⟩
              | null => rw [hcv] at hc0; simp at hc0
              | bool b2 => rw [hcv] at hc0; simp at hc0
              | num n2 => rw [hcv] at hc0; simp at hc0
              | str s2 => rw [hcv] at hc0; simp at hc0
              | obj o2 => rw [hcv] at hc0; simp at hc0
      | null => rw [hl] at hl0; simp at hl0
      | bool b2 => rw [hl] at hl0; simp at hl0
      | num n2 => rw [hl] at hl0; simp at hl0
      | arr xs => rw [hl] at hl0; simp at hl0
      | obj o2 => rw [hl] at hl0; simp at hl0
  | null => simp [wfGroup] at hwg
  | bool b2 => simp [wfGroup] at hwg
  | num n2 => simp [wfGroup] at hwg
  | str s2 => simp [wfGroup] at hwg
  | arr xs => simp [wfGroup] at hwg

theorem mapM_groupEval_ok (rx : RegexSearch) (card : List (String × Json))
    (hw : wfCardKvs card = true) :
    ∀ gl : List Json, (∀ g ∈ gl, wfGroup g = true) →
      ∃ rs, gl.mapM (groupEval rx card) = .ok rs := by
  intro gl
  induction gl with
  | nil => exact fun _ => ⟨[], rfl⟩
  | cons g t ih =>
      intro hall
      obtain ⟨b, hb⟩ := groupEval_ok rx card g
        (hall g (List.mem_cons_self _ _)) hw
      obtain ⟨rs, hrs⟩ := ih (fun g' hg' => hall g' (List.mem_cons_of_mem _ hg'))
      refine ⟨b :: rs, ?_⟩
      rw [List.mapM_cons, hb, hrs]
      rfl

theorem ruleStep_ok (rx : RegexSearch) (card : List (String × Json)) (r : Json)
    (hwr : wfRule r = true) (hw : wfCardKvs card = true) :
    ∃ out, ruleStep rx card r = .ok out := by
  cases r with
  | obj rkvs =>
      unfold wfRule at hwr
      rw [Bool.and_eq_true, Bool.and_eq_true] at hwr
      obtain ⟨⟨hl0, hg0⟩, ha0⟩ := hwr
      simp only [ruleStep]
      by_cases he : truthy ((dget rkvs "enabled").getD (.bool true)) = false
      · rw [if_pos he]
        exact ⟨_, rfl⟩
      · rw [if_neg he]
        by_cases hgt : truthy (ruleGroups rkvs) = false
        · rw [if_pos hgt]
          exact ⟨_, rfl⟩
        · rw [if_neg hgt]
          cases hl : (dget rkvs "logic").getD (.str "OR") with
          | str s =>
              have hor := hg0
              simp only [Bool.or_eq_true, decide_eq_true_eq] at hor
              rcases hor with h | h
              · exact absurd h hgt
              · cases hgv : ruleGroups rkvs with
                | arr gl =>
                    rw [hgv] at h
                    obtain ⟨rs, hrs⟩ := mapM_groupEval_ok rx card hw gl
                      (List.all_eq_true.mp h)
                    dsimp only
                    rw [except_bind_ok,
                      show pyIter (Json.arr gl) = .ok gl from rfl,
                      except_bind_ok, hrs, except_bind_ok]
                    by_cases hm : combineLogic s rs = true
                    · rw [if_pos hm]
                      cases hav : (dget rkvs "actions").getD (.arr []) with
                      | arr al =>
                          rw [show pyIter (Json.arr al) = .ok al from rfl,
                            except_bind_ok]
                          exact ⟨_, rfl⟩
                      | null => rw [hav] at ha0; exact absurd ha0 (by simp)
                      | bool b2 => rw [hav] at ha0; exact absurd ha0 (by simp)
                      | num n2 => rw [hav] at ha0; exact absurd ha0 (by simp)
                      | str s2 => rw [hav] at ha0; exact absurd ha0 (by simp)
                      | obj o2 => rw [hav] at ha0; exact absurd ha0 (by simp)
                    · rw [if_neg hm]
                      exact ⟨_, rfl⟩
                | null => rw [hgv] at h; exact absurd h (by simp)
                | bool b2 => rw [hgv] at h; exact absurd h (by simp)
                | num n2 => rw [hgv] at h; exact absurd h (by simp)
                | str s2 => rw [hgv] at h; exact absurd h (by simp)
                | obj o2 => rw [hgv] at h; exact absurd h (by simp)
          | null => rw [hl] at hl0; exact absurd hl0 (by simp)
          | bool b2 => rw [hl] at hl0; exact absurd hl0 (by simp)
          | num n2 => rw [hl] at hl0; exact absurd hl0 (by simp)
          | arr xs => rw [hl] at hl0; exact absurd hl0 (by simp)
          | obj o2 => rw [hl] at hl0; exact absurd hl0 (by simp)
  | null => simp [wfRule] at hwr
  | bool b2 => simp [wfRule] at hwr
  | num n2 => simp [wfRule] at hwr
  | str s2 => simp [wfRule] at hwr
  | arr xs => simp [wfRule] at hwr

theorem rulesFold_ok (rx : RegexSearch) (card : List (String × Json))
    (hw : wfCardKvs card = true) :
    ∀ (rules : List Json) (acc : List Json), (∀ r ∈ rules, wfRule r = true) →
      ∃ out, rulesFold rx card rules acc = .ok out := by
  intro rules
  induction rules with
  | nil => exact fun acc _ => ⟨acc, rfl⟩
  | cons r t ih =>
      intro acc hall
      obtain ⟨⟨a, st⟩, hstep⟩ := ruleStep_ok rx card r
        (hall r (List.mem_cons_self _ _)) hw
      rw [rulesFold_cons_ok rx card r t acc a st hstep]
      cases st with
      | true =>
          rw [if_pos rfl]
          exact ⟨_, rfl⟩
      | false =>
          rw [if_neg (by simp)]
          exact ih (acc ++ a) (fun r' hr' => hall r' (List.mem_cons_of_mem _ hr'))

theorem precompute_ok (ckvs : List (String × Json))
    (hw : wfCardKvs ckvs = true) :
    ∃ c', precompute ckvs = .ok c' ∧
      (∀ k, k ≠ "character_book_content" → dget c' k = dget ckvs k) ∧
      wfCardKvs c' = true := by
  unfold precompute
  by_cases ht : truthy ((dget ckvs "character_book").getD .null) = false
  · rw [if_pos ht]
    exact ⟨ckvs, rfl, fun k _ => rfl, hw⟩
  · rw [if_neg ht]
    cases hg : dget ckvs "character_book" with
    | none =>
        rw [hg] at ht
        exact absurd rfl ht
    | some v =>
        have hw' := hw
        unfold wfCardKvs at hw'
        rw [Bool.and_eq_true, hg] at hw'
        cases v with
        | obj b =>
            simp only [Option.getD_some]
            cases hwe : wiEntries ((dget b "entries").getD (.arr [])) with
            | arr es =>
                refine ⟨dset ckvs "character_book_content"
                  (.str (combinedWI es)), rfl, ?_, ?_⟩
                · intro k hk
                  exact dget_dset_ne ckvs "character_book_content" k _ hk
                · unfold wfCardKvs at hw ⊢
                  rw [dget_dset_ne ckvs "character_book_content"
                      "character_book" _ (by decide),
                    dget_dset_ne ckvs "character_book_content"
                      "extensions" _ (by decide)]
                  exact hw
            | null => exact ⟨ckvs, rfl, fun k _ => rfl, hw⟩
            | bool b2 => exact ⟨ckvs, rfl, fun k _ => rfl, hw⟩
            | num n2 => exact ⟨ckvs, rfl, fun k _ => rfl, hw⟩
            | str s2 => exact ⟨ckvs, rfl, fun k _ => rfl, hw⟩
            | obj o2 => exact ⟨ckvs, rfl, fun k _ => rfl, hw⟩
        | null => exact absurd hw'.1 (by decide)
        | bool b2 => exact absurd hw'.1 (by cases b2 <;> decide)
        | num n2 => exact absurd hw'.1 (by simp)
        | str s2 => exact absurd hw'.1 (by simp)
        | arr xs => exact absurd hw'.1 (by simp)

/-- C2: on well-formed inputs (the specification's data model: a card
mapping whose character_book and extensions are mappings when present, and
a ruleset whose rules are rule mappings with string logic, group lists and
conditions carrying a string field and an operator), AutomationEngine
.evaluate returns an action plan, and the card document is left unchanged
except for the precomputed character_book_content search field; the
ruleset is never written by the source (no assignment targets it), so its
immutability holds by construction in the model. -/
theorem C2_evaluate_frame (rx : RegexSearch) (ckvs : List (String × Json))
    (ruleset : Json) (hc : wfCardKvs ckvs = true)
    (hr : wfRuleset ruleset = true) :
    ∃ ckvs' acts,
      evaluate rx (.obj ckvs) ruleset =
        .ok (ckvs', .obj [("actions", .arr acts)]) ∧
      ∀ k, k ≠ "character_book_content" → dget ckvs' k = dget ckvs k := by
  obtain ⟨c', hpre, hframe, hwc'⟩ := precompute_ok ckvs hc
  cases ruleset with
  | obj rkvs =>
      have hr2 : (match (dget rkvs "rules").getD (.arr []) with
          | Json.arr rl => rl.all wfRule
          | _ => false) = true := hr
      cases hrl : (dget rkvs "rules").getD (.arr []) with
      | arr rl =>
          rw [hrl] at hr2
          obtain ⟨acts, hacts⟩ := rulesFold_ok rx c' hwc' rl []
            (List.all_eq_true.mp hr2)
          refine ⟨c', acts, ?_, hframe⟩
          simp only [evaluate, hpre, except_bind_ok, hrl]
          rw [show pyIter (Json.arr rl) = .ok rl from rfl, except_bind_ok,
            hacts, except_bind_ok]
      | null => rw [hrl] at hr2; exact absurd hr2 (by simp)
      | bool b2 => rw [hrl] at hr2; exact absurd hr2 (by simp)
      | num n2 => rw [hrl] at hr2; exact absurd hr2 (by simp)
      | str s2 => rw [hrl] at hr2; exact absurd hr2 (by simp)
      | obj o2 => rw [hrl] at hr2; exact absurd hr2 (by simp)
  | null => simp [wfRuleset] at hr
  | bool b2 => simp [wfRuleset] at hr
  | num n2 => simp [wfRuleset] at hr
  | str s2 => simp [wfRuleset] at hr
  | arr xs => simp [wfRuleset] at hr

/-- C2 witness: the frame theorem applied to a concrete card with a
world-info book and a one-rule ruleset. -/
theorem C2_evaluate_frame_witness :
    wfCardKvs [("name", .str "Foo"),
        ("tags", .arr [.str "a", .str "b"]),
        ("character_book", .obj [("entries",
          .arr [.obj [("content", .str "c1"), ("comment", .str "m1")]])])] =
      true ∧
    wfRuleset (.obj [("rules", .arr [.obj [("conditions",
        .arr [.obj [("field", .str "tags"), ("operator", .str "eq"),
          ("value", .str "b,a"), ("case_sensitive", .bool false)]]),
      ("actions", .arr [.str "act"])]])]) = true ∧
    ∃ ckvs' acts,
      evaluate (fun _ _ _ => none)
          (.obj [("name", .str "Foo"),
            ("tags", .arr [.str "a", .str "b"]),
            ("character_book", .obj [("entries",
              .arr [.obj [("content", .str "c1"), ("comment", .str "m1")]])])])
          (.obj [("rules", .arr [.obj [("conditions",
              .arr [.obj [("field", .str "tags"), ("operator", .str "eq"),
                ("value", .str "b,a"), ("case_sensitive", .bool false)]]),
            ("actions", .arr [.str "act"])]])]) =
        .ok (ckvs', .obj [("actions", .arr acts)]) ∧
      ∀ k, k ≠ "character_book_content" →
        dget ckvs' k =
          dget [("name", .str "Foo"),
            ("tags", .arr [.str "a", .str "b"]),
            ("character_book", .obj [("entries",
              .arr [.obj [("content", .str "c1"), ("comment", .str "m1")]])])] k :=
  ⟨rfl, rfl,
    C2_evaluate_frame (fun _ _ _ => none) _ _ rfl rfl⟩
